import Mathlib

/-
Shallow embedding of the attendance-scraping core of the College-Chatbot
repository (testbackend/get_attendance.py, with the table extractor shared
by testbackend/simple_attendance_scraper.py and the per-record cleaning
shared by testbackend/clean_attendance_data.py).

Modelling conventions:
* Python strings are `List Char` (named `Str` below); `chars` converts a
  Lean string literal.
* Python floats are modelled as exact rationals `ℚ`; `round(x, 2)` is
  modelled by `pyRound2` (round half to even on exact rationals).
* `re` character classes are modelled over ASCII: `\d` is `Char.isDigit`,
  `\s` is `pyIsSpace` (space, tab, newline, carriage return, vertical tab,
  form feed).
* The regular expressions used by the source are compiled by hand into
  first-match scanning functions; for the pattern `(\d+)\s*/\s*(\d+)` the
  greedy quantifiers never need to backtrack (a digit is neither `\s` nor
  `/`), so maximal-munch scanning is exact.
-/

set_option maxHeartbeats 1000000

/-- Python strings are modelled as lists of characters. -/
abbrev Str := List Char

/-- Coerce a Lean string literal into the `Str` model. -/
def chars (s : String) : Str := s.data

/-- ASCII model of the Python regex class `\s`. -/
def pyIsSpace (c : Char) : Bool :=
  c == ' ' || c == '\t' || c == '\n' || c == '\r' || c == '\x0b' || c == '\x0c'

/-- Numeric value of a run of decimal digit characters (most significant first). -/
def digitsToNat (ds : Str) : Nat :=
  ds.foldl (fun n c => 10 * n + (c.toNat - '0'.toNat)) 0

/-- One attempt of the regex `(\d+)\s*/\s*(\d+)` anchored at the start of `l`
(`re.search` retries this at every later start position; see `findPT`).
Greedy `\d+`/`\s*` never backtrack here because the character classes are
pairwise disjoint with `/`. -/
def tryMatchPT (l : Str) : Option (Nat × Nat) :=
  if (l.takeWhile Char.isDigit).isEmpty then none
  else
    match (l.dropWhile Char.isDigit).dropWhile pyIsSpace with
    | '/' :: r3 =>
      if ((r3.dropWhile pyIsSpace).takeWhile Char.isDigit).isEmpty then none
      else some (digitsToNat (l.takeWhile Char.isDigit),
                 digitsToNat ((r3.dropWhile pyIsSpace).takeWhile Char.isDigit))
    | _ => none

/-- `re.search(r'(\d+)\s*/\s*(\d+)', l)`: leftmost match, returning the two
captured integers (source: get_attendance.py line 330). -/
def findPT : Str → Option (Nat × Nat)
  | [] => none
  | c :: rest =>
    match tryMatchPT (c :: rest) with
    | some pt => some pt
    | none => findPT rest

/-- Declarative reading of the spec's pattern language: `l` contains a
substring of shape digits, optional whitespace, `/`, optional whitespace,
digits, whose two digit groups denote `p` and `t`. -/
def MatchesPT (l : Str) (p t : Nat) : Prop :=
  ∃ a d1 w1 w2 d2 b,
    l = a ++ d1 ++ w1 ++ '/' :: (w2 ++ d2 ++ b) ∧
    d1 ≠ [] ∧ (∀ c ∈ d1, Char.isDigit c = true) ∧
    (∀ c ∈ w1, pyIsSpace c = true) ∧
    (∀ c ∈ w2, pyIsSpace c = true) ∧
    d2 ≠ [] ∧ (∀ c ∈ d2, Char.isDigit c = true) ∧
    digitsToNat d1 = p ∧ digitsToNat d2 = t

/-- `l` contains some `digits / digits` substring. -/
def HasPT (l : Str) : Prop := ∃ p t, MatchesPT l p t

lemma isDigit_eq_false_of_pyIsSpace {c : Char} (h : pyIsSpace c = true) :
    c.isDigit = false := by
  simp only [pyIsSpace, Bool.or_eq_true, beq_iff_eq] at h
  rcases h with ((((h | h) | h) | h) | h) | h <;> subst h <;> decide

lemma pyIsSpace_eq_false_of_isDigit {c : Char} (h : c.isDigit = true) :
    pyIsSpace c = false := by
  cases hs : pyIsSpace c with
  | false => rfl
  | true => rw [isDigit_eq_false_of_pyIsSpace hs] at h; exact absurd h (by simp)

lemma takeWhile_append_of_all {p : Char → Bool} {a : Str} (b : Str)
    (h : ∀ c ∈ a, p c = true) :
    (a ++ b).takeWhile p = a ++ b.takeWhile p := by
  induction a with
  | nil => simp
  | cons x xs ih =>
    have hx := h x (List.mem_cons_self x xs)
    simp [List.takeWhile_cons, hx, ih (fun c hc => h c (List.mem_cons_of_mem _ hc))]

lemma dropWhile_append_of_all {p : Char → Bool} {a : Str} (b : Str)
    (h : ∀ c ∈ a, p c = true) :
    (a ++ b).dropWhile p = b.dropWhile p := by
  induction a with
  | nil => simp
  | cons x xs ih =>
    have hx := h x (List.mem_cons_self x xs)
    simp [List.dropWhile_cons, hx, ih (fun c hc => h c (List.mem_cons_of_mem _ hc))]

lemma takeWhile_eq_nil_of_head {p : Char → Bool} {x : Char} (l : Str)
    (h : p x = false) : (x :: l).takeWhile p = [] := by
  simp [List.takeWhile_cons, h]

lemma dropWhile_eq_self_of_head {p : Char → Bool} {x : Char} (l : Str)
    (h : p x = false) : (x :: l).dropWhile p = x :: l := by
  simp [List.dropWhile_cons, h]

lemma digit_space_contra {d2 m : Str} (hd2 : d2 ≠ [])
    (hd2d : ∀ c ∈ d2, Char.isDigit c = true)
    (hsub : ∀ c ∈ d2, c ∈ m) (hm : ∀ c ∈ m, pyIsSpace c = true) : False := by
  obtain ⟨e, d2', rfl⟩ := List.exists_cons_of_ne_nil hd2
  have h1 := hd2d e (List.mem_cons_self _ _)
  have h2 := hm e (hsub e (List.mem_cons_self _ _))
  rw [isDigit_eq_false_of_pyIsSpace h2] at h1
  exact absurd h1 (by simp)

lemma tryMatchPT_isSome_of_decomp {d1 w1 w2 d2 b : Str}
    (hd1 : d1 ≠ []) (hd1d : ∀ c ∈ d1, Char.isDigit c = true)
    (hw1 : ∀ c ∈ w1, pyIsSpace c = true) (hw2 : ∀ c ∈ w2, pyIsSpace c = true)
    (hd2 : d2 ≠ []) (hd2d : ∀ c ∈ d2, Char.isDigit c = true) :
    (tryMatchPT (d1 ++ w1 ++ '/' :: (w2 ++ d2 ++ b))).isSome = true := by
  obtain ⟨e, d2', rfl⟩ := List.exists_cons_of_ne_nil hd2
  have htk : (d1 ++ w1 ++ '/' :: (w2 ++ (e :: d2') ++ b)).takeWhile Char.isDigit
      = d1 ++ ((w1 ++ '/' :: (w2 ++ (e :: d2') ++ b)).takeWhile Char.isDigit) := by
    rw [List.append_assoc]
    exact takeWhile_append_of_all _ hd1d
  have htk2 : (w1 ++ '/' :: (w2 ++ (e :: d2') ++ b)).takeWhile Char.isDigit = [] := by
    cases w1 with
    | nil => exact takeWhile_eq_nil_of_head _ (by decide)
    | cons x xs =>
      have hx := hw1 x (List.mem_cons_self _ _)
      exact takeWhile_eq_nil_of_head _ (isDigit_eq_false_of_pyIsSpace hx)
  have hdr : (d1 ++ w1 ++ '/' :: (w2 ++ (e :: d2') ++ b)).dropWhile Char.isDigit
      = w1 ++ '/' :: (w2 ++ (e :: d2') ++ b) := by
    rw [List.append_assoc, dropWhile_append_of_all _ hd1d]
    cases w1 with
    | nil => exact dropWhile_eq_self_of_head _ (by decide)
    | cons x xs =>
      have hx := hw1 x (List.mem_cons_self _ _)
      exact dropWhile_eq_self_of_head _ (isDigit_eq_false_of_pyIsSpace hx)
  have hdr2 : (w1 ++ '/' :: (w2 ++ (e :: d2') ++ b)).dropWhile pyIsSpace
      = '/' :: (w2 ++ (e :: d2') ++ b) := by
    rw [dropWhile_append_of_all _ hw1]
    exact dropWhile_eq_self_of_head _ (by decide)
  have hdr3 : (w2 ++ (e :: d2') ++ b).dropWhile pyIsSpace = (e :: d2') ++ b := by
    rw [List.append_assoc, dropWhile_append_of_all _ hw2]
    have he := hd2d e (List.mem_cons_self _ _)
    exact dropWhile_eq_self_of_head _ (pyIsSpace_eq_false_of_isDigit he)
  unfold tryMatchPT
  rw [htk, htk2, List.append_nil, hdr, hdr2]
  simp only [List.isEmpty_eq_true, hd1, if_false]
  rw [hdr3]
  have htk3 : ((e :: d2') ++ b).takeWhile Char.isDigit
      = (e :: d2') ++ b.takeWhile Char.isDigit := takeWhile_append_of_all _ hd2d
  rw [htk3]
  simp

lemma findPT_eq_some_of_tryMatch {l : Str} {pt : Nat × Nat}
    (h : tryMatchPT l = some pt) : findPT l = some pt := by
  cases l with
  | nil => simp [tryMatchPT] at h
  | cons c r => simp [findPT, h]

lemma findPT_isSome_cons {c : Char} {l : Str} (h : (findPT l).isSome = true) :
    (findPT (c :: l)).isSome = true := by
  rw [findPT]
  cases htm : tryMatchPT (c :: l) with
  | some pt => simp
  | none => simpa using h

lemma findPT_isSome_of_MatchesPT {l : Str} {p t : Nat} (h : MatchesPT l p t) :
    (findPT l).isSome = true := by
  obtain ⟨a, d1, w1, w2, d2, b, rfl, hd1, hd1d, hw1, hw2, hd2, hd2d, _, _⟩ := h
  induction a with
  | nil =>
    obtain ⟨pt, hpt⟩ := Option.isSome_iff_exists.mp
      (tryMatchPT_isSome_of_decomp hd1 hd1d hw1 hw2 hd2 hd2d)
    rw [List.nil_append, findPT_eq_some_of_tryMatch hpt]
    rfl
  | cons x xs ih =>
    rw [List.cons_append]
    exact findPT_isSome_cons ih

lemma findPT_isSome_of_HasPT {l : Str} (h : HasPT l) : (findPT l).isSome = true := by
  obtain ⟨p, t, hm⟩ := h
  exact findPT_isSome_of_MatchesPT hm

lemma not_HasPT_of_findPT_eq_none {l : Str} (h : findPT l = none) : ¬ HasPT l := by
  intro hh
  have := findPT_isSome_of_HasPT hh
  rw [h] at this
  exact absurd this (by simp)

lemma MatchesPT_cons {c : Char} {l : Str} {p t : Nat} (h : MatchesPT l p t) :
    MatchesPT (c :: l) p t := by
  obtain ⟨a, d1, w1, w2, d2, b, rfl, hs⟩ := h
  exact ⟨c :: a, d1, w1, w2, d2, b, by simp, hs⟩

lemma MatchesPT_of_tryMatchPT {l : Str} {p t : Nat}
    (h : tryMatchPT l = some (p, t)) : MatchesPT l p t := by
  unfold tryMatchPT at h
  split at h
  · exact absurd h (by simp)
  · rename_i hne
    split at h
    · rename_i r3 heq
      split at h
      · exact absurd h (by simp)
      · rename_i hne2
        have hinj := Option.some_injective _ h
        refine ⟨[], l.takeWhile Char.isDigit,
          (l.dropWhile Char.isDigit).takeWhile pyIsSpace,
          r3.takeWhile pyIsSpace,
          (r3.dropWhile pyIsSpace).takeWhile Char.isDigit,
          (r3.dropWhile pyIsSpace).dropWhile Char.isDigit, ?_, ?_, ?_, ?_, ?_, ?_, ?_, ?_, ?_⟩
        · rw [List.nil_append]
          have e1 := (List.takeWhile_append_dropWhile (p := Char.isDigit) (l := l)).symm
          have e2 := (List.takeWhile_append_dropWhile (p := pyIsSpace)
            (l := l.dropWhile Char.isDigit)).symm
          rw [heq] at e2
          have e3 := (List.takeWhile_append_dropWhile (p := pyIsSpace) (l := r3)).symm
          have e4 := (List.takeWhile_append_dropWhile (p := Char.isDigit)
            (l := r3.dropWhile pyIsSpace)).symm
          conv_lhs => rw [e1, e2, e3, e4]
          simp [List.append_assoc]
        · simpa using hne
        · intro c hc; exact List.mem_takeWhile_imp hc
        · intro c hc; exact List.mem_takeWhile_imp hc
        · intro c hc; exact List.mem_takeWhile_imp hc
        · simpa using hne2
        · intro c hc; exact List.mem_takeWhile_imp hc
        · exact congrArg Prod.fst hinj
        · exact congrArg Prod.snd hinj
    · exact absurd h (by simp)

lemma findPT_sound {l : Str} {p t : Nat} (h : findPT l = some (p, t)) :
    MatchesPT l p t := by
  induction l with
  | nil => simp [findPT] at h
  | cons c r ih =>
    rw [findPT] at h
    cases htm : tryMatchPT (c :: r) with
    | some pt =>
      rw [htm] at h
      cases pt with
      | mk p' t' =>
        simp only [Option.some.injEq, Prod.mk.injEq] at h
        obtain ⟨rfl, rfl⟩ := h
        exact MatchesPT_of_tryMatchPT htm
    | none =>
      rw [htm] at h
      exact MatchesPT_cons (ih h)

/-- A character that survives whitespace filtering. -/
def nonspace (c : Char) : Bool := !pyIsSpace c

/-- Scanner deciding whether a whitespace-free string contains a digit,
a slash and a digit in three consecutive positions. -/
def hasPT0b : Str → Bool
  | a :: b :: c :: rest =>
    (Char.isDigit a && (b == '/') && Char.isDigit c) || hasPT0b (b :: c :: rest)
  | _ => false

lemma hasPT0b_cons {x : Char} {l : Str} (h : hasPT0b l = true) :
    hasPT0b (x :: l) = true := by
  match l with
  | [] => simp [hasPT0b] at h
  | [a] => simp [hasPT0b] at h
  | a :: b :: r => simp [hasPT0b, h]

lemma hasPT0b_append {a : Str} {d e : Char} {b : Str}
    (hd : Char.isDigit d = true) (he : Char.isDigit e = true) :
    hasPT0b (a ++ d :: '/' :: e :: b) = true := by
  induction a with
  | nil => simp [hasPT0b, hd, he]
  | cons x xs ih => rw [List.cons_append]; exact hasPT0b_cons ih

lemma hasPT0b_sound {l : Str} (h : hasPT0b l = true) :
    ∃ a d e b, l = a ++ d :: '/' :: e :: b ∧
      Char.isDigit d = true ∧ Char.isDigit e = true := by
  induction l with
  | nil => simp [hasPT0b] at h
  | cons x t ih =>
    match t, ih with
    | [], _ => simp [hasPT0b] at h
    | [y], _ => simp [hasPT0b] at h
    | y :: z :: v, ih =>
      rw [hasPT0b, Bool.or_eq_true] at h
      rcases h with h | h
      · rw [Bool.and_eq_true, Bool.and_eq_true] at h
        obtain ⟨⟨hx, hy⟩, hz⟩ := h
        rw [beq_iff_eq] at hy
        subst hy
        exact ⟨[], x, z, v, by simp, hx, hz⟩
      · obtain ⟨a, d, e, b, heq, hd, he⟩ := ih h
        exact ⟨x :: a, d, e, b, by simp [heq], hd, he⟩

lemma nonspace_of_isDigit {c : Char} (h : Char.isDigit c = true) :
    nonspace c = true := by
  simp [nonspace, pyIsSpace_eq_false_of_isDigit h]

lemma hasPT0b_filter_of_MatchesPT {l : Str} {p t : Nat} (h : MatchesPT l p t) :
    hasPT0b (l.filter nonspace) = true := by
  obtain ⟨a, d1, w1, w2, d2, b, rfl, hd1, hd1d, hw1, hw2, hd2, hd2d, _, _⟩ := h
  obtain ⟨e, d2', rfl⟩ := List.exists_cons_of_ne_nil hd2
  have hfd1 : d1.filter nonspace = d1 :=
    List.filter_eq_self.mpr (fun c hc => nonspace_of_isDigit (hd1d c hc))
  have hfw1 : w1.filter nonspace = [] := by
    rw [List.filter_eq_nil_iff]
    intro c hc
    simp [nonspace, hw1 c hc]
  have hfw2 : w2.filter nonspace = [] := by
    rw [List.filter_eq_nil_iff]
    intro c hc
    simp [nonspace, hw2 c hc]
  obtain ⟨d1s, dl, rfl⟩ : ∃ L z, d1 = L ++ [z] := by
    rcases List.eq_nil_or_concat' d1 with h | h
    · exact absurd h hd1
    · exact h
  have hdl : Char.isDigit dl = true := hd1d dl (by simp)
  have hdls : ∀ c ∈ d1s, Char.isDigit c = true := fun c hc => hd1d c (by simp [hc])
  have he : Char.isDigit e = true := hd2d e (List.mem_cons_self _ _)
  have hkey : (a ++ (d1s ++ [dl]) ++ w1 ++ '/' :: (w2 ++ (e :: d2') ++ b)).filter nonspace
      = (a.filter nonspace ++ d1s) ++ dl :: '/' :: e :: (d2'.filter nonspace ++ b.filter nonspace) := by
    simp only [List.filter_append, List.filter_cons]
    rw [hfw1, hfw2]
    have : d1s.filter nonspace = d1s :=
      List.filter_eq_self.mpr (fun c hc => nonspace_of_isDigit (hdls c hc))
    rw [this]
    have hslash : nonspace '/' = true := by decide
    have hdl2 : nonspace dl = true := nonspace_of_isDigit hdl
    have he2 : nonspace e = true := nonspace_of_isDigit he
    simp [hslash, hdl2, he2, List.append_assoc]
  rw [hkey]
  have hd2f : ∀ c ∈ d2'.filter nonspace ++ b.filter nonspace, True := fun _ _ => trivial
  exact hasPT0b_append hdl he

lemma filter_decomp {p : Char → Bool} {l a b : Str} (h : l.filter p = a ++ b) :
    ∃ la lb, l = la ++ lb ∧ la.filter p = a ∧ lb.filter p = b := by
  induction l generalizing a with
  | nil =>
    rw [List.filter_nil] at h
    obtain ⟨rfl, rfl⟩ := (List.append_eq_nil).mp h.symm
    exact ⟨[], [], by simp, by simp, by simp⟩
  | cons x t ih =>
    by_cases hx : p x
    · rw [List.filter_cons_of_pos hx] at h
      cases a with
      | nil =>
        refine ⟨[], x :: t, by simp, by simp, ?_⟩
        rw [List.filter_cons_of_pos hx]
        simpa using h
      | cons a0 a' =>
        rw [List.cons_append] at h
        injection h with h0 h1
        subst h0
        obtain ⟨la, lb, rfl, hfa, hfb⟩ := ih h1
        exact ⟨x :: la, lb, by simp, by simp [List.filter_cons_of_pos hx, hfa], hfb⟩
    · rw [List.filter_cons_of_neg hx] at h
      obtain ⟨la, lb, rfl, hfa, hfb⟩ := ih h
      exact ⟨x :: la, lb, by simp, by simp [List.filter_cons_of_neg hx, hfa], hfb⟩

lemma filter_eq_cons_decomp {p : Char → Bool} {l : Str} {c : Char} {b : Str}
    (h : l.filter p = c :: b) :
    ∃ u v, l = u ++ c :: v ∧ (∀ x ∈ u, p x = false) ∧ v.filter p = b := by
  induction l with
  | nil => simp at h
  | cons x t ih =>
    by_cases hx : p x
    · rw [List.filter_cons_of_pos hx] at h
      injection h with h0 h1
      subst h0
      exact ⟨[], t, by simp, by simp, h1⟩
    · rw [List.filter_cons_of_neg hx] at h
      obtain ⟨u, v, rfl, hu, hv⟩ := ih h
      refine ⟨x :: u, v, by simp, ?_, hv⟩
      intro y hy
      rcases List.mem_cons.mp hy with rfl | hy
      · simpa using hx
      · exact hu y hy

lemma HasPT_of_hasPT0b_filter {l : Str} (h : hasPT0b (l.filter nonspace) = true) :
    HasPT l := by
  obtain ⟨a, d, e, b, heq, hd, he⟩ := hasPT0b_sound h
  obtain ⟨la, lb, rfl, _, hfb⟩ := filter_decomp heq
  obtain ⟨u1, v1, rfl, hu1, hv1⟩ := filter_eq_cons_decomp hfb
  obtain ⟨u2, v2, rfl, hu2, hv2⟩ := filter_eq_cons_decomp hv1
  obtain ⟨u3, v3, rfl, hu3, _⟩ := filter_eq_cons_decomp hv2
  have hsp : ∀ u : Str, (∀ x ∈ u, nonspace x = false) → ∀ x ∈ u, pyIsSpace x = true := by
    intro u hu x hx
    have := hu x hx
    simpa [nonspace] using this
  refine ⟨digitsToNat [d], digitsToNat [e],
    la ++ u1, [d], u2, u3, [e], v3, ?_, by simp, ?_, ?_, ?_, by simp, ?_, rfl, rfl⟩
  · simp [List.append_assoc]
  · intro c hc; rw [List.mem_singleton.mp hc]; exact hd
  · exact hsp u2 hu2
  · exact hsp u3 hu3
  · intro c hc; rw [List.mem_singleton.mp hc]; exact he

/-- Python `str.strip()` with no argument: drop leading and trailing
whitespace. -/
def pyStrip (l : Str) : Str :=
  ((l.dropWhile pyIsSpace).reverse.dropWhile pyIsSpace).reverse

/-- Python `re.sub(r'\s+', ' ', l)`: every maximal whitespace run becomes a
single space (the run is emitted when its last character is reached). -/
def subWS : Str → Str
  | [] => []
  | [c] => if pyIsSpace c then [' '] else [c]
  | c :: d :: rest =>
    if pyIsSpace c then
      (if pyIsSpace d then subWS (d :: rest) else ' ' :: subWS (d :: rest))
    else c :: subWS (d :: rest)

/-- Fuel-driven body of Python `str.replace(pat, rep)`: leftmost,
non-overlapping, all occurrences.  Fuel is instantiated with the length of
the subject string, which suffices for non-empty patterns. -/
def replaceFuel (pat rep : Str) : Nat → Str → Str
  | 0, l => l
  | _ + 1, [] => []
  | fuel + 1, c :: rest =>
    if pat.isPrefixOf (c :: rest) then
      rep ++ replaceFuel pat rep fuel ((c :: rest).drop pat.length)
    else
      c :: replaceFuel pat rep fuel rest

/-- Python `l.replace(pat, rep)` for a non-empty pattern. -/
def pyReplace (pat rep : Str) (l : Str) : Str :=
  replaceFuel pat rep l.length l

/-- The whole normalization applied to the raw `Present / Total` cell before
the integer-pair regex runs (get_attendance.py lines 325-327): strip, then
collapse whitespace runs, then the two slash-newline replacements. -/
def normPT (s : Str) : Str :=
  pyReplace (chars "\n/") (chars "/")
    (pyReplace (chars "/\n") (chars "/") (subWS (pyStrip s)))

lemma filter_nonspace_dropWhile (l : Str) :
    (l.dropWhile pyIsSpace).filter nonspace = l.filter nonspace := by
  induction l with
  | nil => simp
  | cons x t ih =>
    by_cases hx : pyIsSpace x
    · rw [List.dropWhile_cons_of_pos hx, ih, List.filter_cons_of_neg (by simp [nonspace, hx])]
    · rw [List.dropWhile_cons_of_neg hx]

lemma filter_nonspace_pyStrip (l : Str) :
    (pyStrip l).filter nonspace = l.filter nonspace := by
  unfold pyStrip
  rw [List.filter_reverse, filter_nonspace_dropWhile, List.filter_reverse,
    List.reverse_reverse, filter_nonspace_dropWhile]

lemma subWS_single (c : Char) :
    subWS [c] = if pyIsSpace c = true then [' '] else [c] := rfl

lemma subWS_cons_cons (c d : Char) (rest : Str) :
    subWS (c :: d :: rest) =
      if pyIsSpace c = true then
        (if pyIsSpace d = true then subWS (d :: rest) else ' ' :: subWS (d :: rest))
      else c :: subWS (d :: rest) := rfl

lemma filter_nonspace_subWS (l : Str) :
    (subWS l).filter nonspace = l.filter nonspace := by
  induction l with
  | nil => simp [subWS]
  | cons c t ih =>
    cases t with
    | nil =>
      by_cases hc : pyIsSpace c = true
      · rw [subWS_single, if_pos hc, List.filter_cons_of_neg (by decide),
          List.filter_cons_of_neg (by simp [nonspace, hc])]
      · rw [subWS_single, if_neg hc]
    | cons d rest =>
      by_cases hc : pyIsSpace c = true
      · by_cases hd : pyIsSpace d = true
        · rw [subWS_cons_cons, if_pos hc, if_pos hd, ih]
          exact (List.filter_cons_of_neg (by simp [nonspace, hc])).symm
        · rw [subWS_cons_cons, if_pos hc, if_neg hd,
            List.filter_cons_of_neg (show ¬nonspace ' ' = true by decide), ih]
          exact (List.filter_cons_of_neg (by simp [nonspace, hc])).symm
      · rw [subWS_cons_cons, if_neg hc, List.filter_cons, List.filter_cons, ih]

lemma replaceFuel_eq_self_of_not_mem {pat rep : Str} {ch : Char} (hch : ch ∈ pat) :
    ∀ (f : Nat) (l : Str), ch ∉ l → replaceFuel pat rep f l = l := by
  intro f
  induction f with
  | zero => intro l _; rfl
  | succ f ih =>
    intro l hl
    cases l with
    | nil => rfl
    | cons c rest =>
      rw [replaceFuel]
      have hpre : pat.isPrefixOf (c :: rest) = false := by
        cases hp : pat.isPrefixOf (c :: rest) with
        | false => rfl
        | true =>
          have := (List.isPrefixOf_iff_prefix.mp hp).subset hch
          exact absurd this hl
      rw [hpre, if_neg (by simp)]
      have : ch ∉ rest := fun h => hl (List.mem_cons_of_mem _ h)
      rw [ih rest this]

lemma newline_not_mem_subWS (l : Str) : '\n' ∉ subWS l := by
  induction l with
  | nil => simp [subWS]
  | cons c t ih =>
    cases t with
    | nil =>
      by_cases hc : pyIsSpace c = true
      · rw [subWS_single, if_pos hc]
        intro h
        exact absurd (List.mem_singleton.mp h) (by decide)
      · rw [subWS_single, if_neg hc]
        intro h
        rw [← List.mem_singleton.mp h] at hc
        exact hc (by decide)
    | cons d rest =>
      by_cases hc : pyIsSpace c = true
      · by_cases hd : pyIsSpace d = true
        · rw [subWS_cons_cons, if_pos hc, if_pos hd]
          exact ih
        · rw [subWS_cons_cons, if_pos hc, if_neg hd]
          intro h
          rcases List.mem_cons.mp h with h | h
          · exact absurd h (by decide)
          · exact ih h
      · rw [subWS_cons_cons, if_neg hc]
        intro h
        rcases List.mem_cons.mp h with h | h
        · rw [← h] at hc; exact hc (by decide)
        · exact ih h

lemma normPT_eq_subWS_pyStrip (s : Str) : normPT s = subWS (pyStrip s) := by
  unfold normPT
  have h1 : pyReplace (chars "/\n") (chars "/") (subWS (pyStrip s)) = subWS (pyStrip s) :=
    @replaceFuel_eq_self_of_not_mem (chars "/\n") (chars "/") '\n' (by decide) _ _
      (newline_not_mem_subWS _)
  rw [h1]
  exact @replaceFuel_eq_self_of_not_mem (chars "\n/") (chars "/") '\n' (by decide) _ _
    (newline_not_mem_subWS _)

lemma filter_nonspace_normPT (s : Str) :
    (normPT s).filter nonspace = s.filter nonspace := by
  rw [normPT_eq_subWS_pyStrip, filter_nonspace_subWS, filter_nonspace_pyStrip]

lemma subWS_space_head (l : Str) :
    ∀ c : Char, pyIsSpace c = true → ∃ tail, subWS (c :: l) = ' ' :: tail := by
  induction l with
  | nil => intro c hc; exact ⟨[], by rw [subWS_single, if_pos hc]⟩
  | cons d rest ih =>
    intro c hc
    by_cases hd : pyIsSpace d = true
    · obtain ⟨tail, htail⟩ := ih d hd
      exact ⟨tail, by rw [subWS_cons_cons, if_pos hc, if_pos hd, htail]⟩
    · exact ⟨subWS (d :: rest), by rw [subWS_cons_cons, if_pos hc, if_neg hd]⟩


lemma subWS_tail_digits :
    ∀ (l : Str) (ds b : Str), subWS l = ds ++ b →
      (∀ c ∈ ds, Char.isDigit c = true) → ∃ b', l = ds ++ b' := by
  intro l
  induction l with
  | nil =>
    intro ds b heq hds
    have h0 : ds ++ b = ([] : Str) := heq.symm
    obtain ⟨rfl, rfl⟩ := List.append_eq_nil.mp h0
    exact ⟨[], rfl⟩
  | cons c t ih =>
    intro ds b heq hds
    cases ds with
    | nil => exact ⟨c :: t, rfl⟩
    | cons x ds' =>
      have hx : Char.isDigit x = true := hds x (List.mem_cons_self _ _)
      cases t with
      | nil =>
        by_cases hc : pyIsSpace c = true
        · rw [subWS_single, if_pos hc, List.cons_append] at heq
          injection heq with h1 h2
          rw [← h1] at hx
          exact absurd hx (by decide)
        · rw [subWS_single, if_neg hc, List.cons_append] at heq
          injection heq with h1 h2
          obtain ⟨rfl, rfl⟩ := List.append_eq_nil.mp h2.symm
          exact ⟨[], by rw [h1]; simp⟩
      | cons d rest =>
        by_cases hc : pyIsSpace c = true
        · obtain ⟨tail, htail⟩ := subWS_space_head (d :: rest) c hc
          rw [htail, List.cons_append] at heq
          injection heq with h1 h2
          rw [← h1] at hx
          exact absurd hx (by decide)
        · rw [subWS_cons_cons, if_neg hc, List.cons_append] at heq
          injection heq with h1 h2
          obtain ⟨b', hb'⟩ := ih ds' b h2 (fun y hy => hds y (List.mem_cons_of_mem _ hy))
          refine ⟨b', ?_⟩
          rw [List.cons_append, ← hb', h1]

lemma subWS_tail_after_slash :
    ∀ (l : Str) (w2 d2 b : Str), subWS l = w2 ++ d2 ++ b →
      (∀ c ∈ w2, pyIsSpace c = true) → (∀ c ∈ d2, Char.isDigit c = true) → d2 ≠ [] →
      ∃ w2' b', l = w2' ++ d2 ++ b' ∧ (∀ c ∈ w2', pyIsSpace c = true) := by
  intro l
  induction l with
  | nil =>
    intro w2 d2 b heq hw2 hd2d hd2
    have h0 : w2 ++ d2 ++ b = ([] : Str) := heq.symm
    obtain ⟨h1, rfl⟩ := List.append_eq_nil.mp h0
    obtain ⟨rfl, rfl⟩ := List.append_eq_nil.mp h1
    exact absurd rfl hd2
  | cons c t ih =>
    intro w2 d2 b heq hw2 hd2d hd2
    obtain ⟨e, d2', rfl⟩ := List.exists_cons_of_ne_nil hd2
    have he : Char.isDigit e = true := hd2d e (List.mem_cons_self _ _)
    cases t with
    | nil =>
      by_cases hc : pyIsSpace c = true
      · rw [subWS_single, if_pos hc] at heq
        cases w2 with
        | nil =>
          rw [List.nil_append, List.cons_append] at heq
          injection heq with h1 h2
          rw [← h1] at he
          exact absurd he (by decide)
        | cons x w2r =>
          rw [List.cons_append] at heq
          injection heq with h1 h2
          obtain ⟨h3, rfl⟩ := List.append_eq_nil.mp h2.symm
          obtain ⟨rfl, h4⟩ := List.append_eq_nil.mp h3
          exact absurd h4 (List.cons_ne_nil _ _)
      · rw [subWS_single, if_neg hc] at heq
        cases w2 with
        | nil =>
          rw [List.nil_append, List.cons_append] at heq
          injection heq with h1 h2
          obtain ⟨rfl, rfl⟩ := List.append_eq_nil.mp h2.symm
          refine ⟨[], [], ?_, by simp⟩
          rw [h1]
          simp
        | cons x w2r =>
          rw [List.cons_append] at heq
          injection heq with h1 h2
          obtain ⟨h3, rfl⟩ := List.append_eq_nil.mp h2.symm
          obtain ⟨rfl, h4⟩ := List.append_eq_nil.mp h3
          exact absurd h4 (List.cons_ne_nil _ _)
    | cons d rest =>
      by_cases hc : pyIsSpace c = true
      · by_cases hd : pyIsSpace d = true
        · rw [subWS_cons_cons, if_pos hc, if_pos hd] at heq
          obtain ⟨w2', b', hb', hw2'⟩ := ih w2 (e :: d2') b heq hw2 hd2d (by simp)
          refine ⟨c :: w2', b', ?_, ?_⟩
          · have hre : (c :: w2') ++ (e :: d2') ++ b' = c :: (w2' ++ (e :: d2') ++ b') := by
              simp
            rw [hre, ← hb']
          · intro y hy
            rcases List.mem_cons.mp hy with rfl | hy
            · exact hc
            · exact hw2' y hy
        · rw [subWS_cons_cons, if_pos hc, if_neg hd] at heq
          cases w2 with
          | nil =>
            rw [List.nil_append, List.cons_append] at heq
            injection heq with h1 h2
            rw [← h1] at he
            exact absurd he (by decide)
          | cons x w2r =>
            rw [List.cons_append] at heq
            injection heq with h1 h2
            obtain ⟨w2', b', hb', hw2'⟩ := ih w2r (e :: d2') b h2
              (fun y hy => hw2 y (List.mem_cons_of_mem _ hy)) hd2d (by simp)
            refine ⟨c :: w2', b', ?_, ?_⟩
            · have hre : (c :: w2') ++ (e :: d2') ++ b' = c :: (w2' ++ (e :: d2') ++ b') := by
                simp
              rw [hre, ← hb']
            · intro y hy
              rcases List.mem_cons.mp hy with rfl | hy
              · exact hc
              · exact hw2' y hy
      · rw [subWS_cons_cons, if_neg hc] at heq
        cases w2 with
        | nil =>
          rw [List.nil_append, List.cons_append] at heq
          injection heq with h1 h2
          obtain ⟨b', hb'⟩ := subWS_tail_digits (d :: rest) d2' b h2
            (fun y hy => hd2d y (List.mem_cons_of_mem _ hy))
          refine ⟨[], b', ?_, by simp⟩
          have hre : ([] ++ (e :: d2')) ++ b' = e :: (d2' ++ b') := by simp
          rw [hre, ← hb', h1]
        | cons x w2r =>
          rw [List.cons_append] at heq
          injection heq with h1 h2
          have hxs := hw2 x (List.mem_cons_self _ _)
          rw [← h1] at hxs
          exact absurd hxs (by simp [hc])

lemma subWS_slash :
    ∀ (l : Str) (w1 w2 d2 b : Str), subWS l = w1 ++ '/' :: (w2 ++ d2 ++ b) →
      (∀ c ∈ w1, pyIsSpace c = true) → (∀ c ∈ w2, pyIsSpace c = true) →
      (∀ c ∈ d2, Char.isDigit c = true) → d2 ≠ [] →
      ∃ w1' w2' b', l = w1' ++ '/' :: (w2' ++ d2 ++ b') ∧
        (∀ c ∈ w1', pyIsSpace c = true) ∧ (∀ c ∈ w2', pyIsSpace c = true) := by
  intro l
  induction l with
  | nil =>
    intro w1 w2 d2 b heq hw1 hw2 hd2d hd2
    have h0 : w1 ++ '/' :: (w2 ++ d2 ++ b) = ([] : Str) := heq.symm
    obtain ⟨rfl, h1⟩ := List.append_eq_nil.mp h0
    exact absurd h1 (List.cons_ne_nil _ _)
  | cons c t ih =>
    intro w1 w2 d2 b heq hw1 hw2 hd2d hd2
    cases t with
    | nil =>
      by_cases hc : pyIsSpace c = true
      · rw [subWS_single, if_pos hc] at heq
        cases w1 with
        | nil =>
          rw [List.nil_append] at heq
          injection heq with h1 h2
          exact absurd h1.symm (by decide)
        | cons x w1r =>
          rw [List.cons_append] at heq
          injection heq with h1 h2
          obtain ⟨rfl, h3⟩ := List.append_eq_nil.mp h2.symm
          exact absurd h3 (List.cons_ne_nil _ _)
      · rw [subWS_single, if_neg hc] at heq
        cases w1 with
        | nil =>
          rw [List.nil_append] at heq
          injection heq with h1 h2
          obtain ⟨h3, rfl⟩ := List.append_eq_nil.mp h2.symm
          obtain ⟨rfl, rfl⟩ := List.append_eq_nil.mp h3
          exact absurd rfl hd2
        | cons x w1r =>
          rw [List.cons_append] at heq
          injection heq with h1 h2
          obtain ⟨rfl, h3⟩ := List.append_eq_nil.mp h2.symm
          exact absurd h3 (List.cons_ne_nil _ _)
    | cons d rest =>
      by_cases hc : pyIsSpace c = true
      · by_cases hd : pyIsSpace d = true
        · rw [subWS_cons_cons, if_pos hc, if_pos hd] at heq
          obtain ⟨w1', w2', b', hb', hw1', hw2'⟩ := ih w1 w2 d2 b heq hw1 hw2 hd2d hd2
          refine ⟨c :: w1', w2', b', ?_, ?_, hw2'⟩
          · rw [List.cons_append, ← hb']
          · intro y hy
            rcases List.mem_cons.mp hy with rfl | hy
            · exact hc
            · exact hw1' y hy
        · rw [subWS_cons_cons, if_pos hc, if_neg hd] at heq
          cases w1 with
          | nil =>
            rw [List.nil_append] at heq
            injection heq with h1 h2
            exact absurd h1.symm (by decide)
          | cons x w1r =>
            rw [List.cons_append] at heq
            injection heq with h1 h2
            obtain ⟨w1', w2', b', hb', hw1', hw2'⟩ := ih w1r w2 d2 b h2
              (fun y hy => hw1 y (List.mem_cons_of_mem _ hy)) hw2 hd2d hd2
            refine ⟨c :: w1', w2', b', ?_, ?_, hw2'⟩
            · rw [List.cons_append, ← hb']
            · intro y hy
              rcases List.mem_cons.mp hy with rfl | hy
              · exact hc
              · exact hw1' y hy
      · rw [subWS_cons_cons, if_neg hc] at heq
        cases w1 with
        | nil =>
          rw [List.nil_append] at heq
          injection heq with h1 h2
          obtain ⟨w2', b', hb', hw2'⟩ := subWS_tail_after_slash (d :: rest) w2 d2 b h2
            hw2 hd2d hd2
          refine ⟨[], w2', b', ?_, by simp, hw2'⟩
          rw [List.nil_append, ← hb', h1]
        | cons x w1r =>
          rw [List.cons_append] at heq
          injection heq with h1 h2
          have hxs := hw1 x (List.mem_cons_self _ _)
          rw [← h1] at hxs
          exact absurd hxs (by simp [hc])

lemma subWS_digits_slash :
    ∀ (d1 : Str) (l : Str) (w1 w2 d2 b : Str),
      subWS l = d1 ++ w1 ++ '/' :: (w2 ++ d2 ++ b) →
      (∀ c ∈ d1, Char.isDigit c = true) →
      (∀ c ∈ w1, pyIsSpace c = true) → (∀ c ∈ w2, pyIsSpace c = true) →
      (∀ c ∈ d2, Char.isDigit c = true) → d2 ≠ [] →
      ∃ w1' w2' b', l = d1 ++ w1' ++ '/' :: (w2' ++ d2 ++ b') ∧
        (∀ c ∈ w1', pyIsSpace c = true) ∧ (∀ c ∈ w2', pyIsSpace c = true) := by
  intro d1
  induction d1 with
  | nil =>
    intro l w1 w2 d2 b heq hd1d hw1 hw2 hd2d hd2
    rw [List.nil_append] at heq
    obtain ⟨w1', w2', b', hb', hw1', hw2'⟩ := subWS_slash l w1 w2 d2 b heq hw1 hw2 hd2d hd2
    exact ⟨w1', w2', b', by rw [List.nil_append]; exact hb', hw1', hw2'⟩
  | cons x d1r ih =>
    intro l w1 w2 d2 b heq hd1d hw1 hw2 hd2d hd2
    have hx : Char.isDigit x = true := hd1d x (List.mem_cons_self _ _)
    have heq' : subWS l = x :: (d1r ++ w1 ++ '/' :: (w2 ++ d2 ++ b)) := by
      rw [heq]
      simp [List.append_assoc]
    cases l with
    | nil => exact absurd heq'.symm (List.cons_ne_nil _ _)
    | cons c t =>
      cases t with
      | nil =>
        by_cases hc : pyIsSpace c = true
        · rw [subWS_single, if_pos hc] at heq'
          injection heq' with h1 h2
          rw [← h1] at hx
          exact absurd hx (by decide)
        · rw [subWS_single, if_neg hc] at heq'
          injection heq' with h1 h2
          have h0 : d1r ++ w1 ++ '/' :: (w2 ++ d2 ++ b) = ([] : Str) := by
            rw [← h2]
          obtain ⟨h3, h4⟩ := List.append_eq_nil.mp h0
          exact absurd h4 (List.cons_ne_nil _ _)
      | cons d rest =>
        by_cases hc : pyIsSpace c = true
        · obtain ⟨tail, htail⟩ := subWS_space_head (d :: rest) c hc
          rw [htail] at heq'
          injection heq' with h1 h2
          rw [← h1] at hx
          exact absurd hx (by decide)
        · rw [subWS_cons_cons, if_neg hc] at heq'
          injection heq' with h1 h2
          have h2' : subWS (d :: rest) = d1r ++ w1 ++ '/' :: (w2 ++ d2 ++ b) := by
            rw [h2]
          obtain ⟨w1', w2', b', hb', hw1', hw2'⟩ := ih (d :: rest) w1 w2 d2 b h2'
            (fun y hy => hd1d y (List.mem_cons_of_mem _ hy)) hw1 hw2 hd2d hd2
          refine ⟨w1', w2', b', ?_, hw1', hw2'⟩
          have hre : (x :: d1r) ++ w1' ++ '/' :: (w2' ++ d2 ++ b')
              = x :: (d1r ++ w1' ++ '/' :: (w2' ++ d2 ++ b')) := by
            simp [List.append_assoc]
          rw [hre, ← hb', h1]

lemma subWS_full_decomp :
    ∀ (l : Str) (a d1 w1 w2 d2 b : Str),
      subWS l = a ++ d1 ++ w1 ++ '/' :: (w2 ++ d2 ++ b) →
      d1 ≠ [] → (∀ c ∈ d1, Char.isDigit c = true) →
      (∀ c ∈ w1, pyIsSpace c = true) → (∀ c ∈ w2, pyIsSpace c = true) →
      d2 ≠ [] → (∀ c ∈ d2, Char.isDigit c = true) →
      MatchesPT l (digitsToNat d1) (digitsToNat d2) := by
  intro l
  induction l with
  | nil =>
    intro a d1 w1 w2 d2 b heq hd1 hd1d hw1 hw2 hd2 hd2d
    have h0 : a ++ d1 ++ w1 ++ '/' :: (w2 ++ d2 ++ b) = ([] : Str) := heq.symm
    obtain ⟨h1, h2⟩ := List.append_eq_nil.mp h0
    exact absurd h2 (List.cons_ne_nil _ _)
  | cons c t ih =>
    intro a d1 w1 w2 d2 b heq hd1 hd1d hw1 hw2 hd2 hd2d
    cases t with
    | nil =>
      have hL : (subWS [c]).length = 1 := by
        rw [subWS_single]
        by_cases hc : pyIsSpace c = true <;> simp [hc]
      obtain ⟨y, d1r, rfl⟩ := List.exists_cons_of_ne_nil hd1
      have h2 : 2 ≤ (a ++ (y :: d1r) ++ w1 ++ '/' :: (w2 ++ d2 ++ b)).length := by
        simp [List.length_append]
        omega
      rw [← heq, hL] at h2
      omega
    | cons d rest =>
      by_cases hc : pyIsSpace c = true
      · by_cases hd : pyIsSpace d = true
        · rw [subWS_cons_cons, if_pos hc, if_pos hd] at heq
          exact MatchesPT_cons (ih a d1 w1 w2 d2 b heq hd1 hd1d hw1 hw2 hd2 hd2d)
        · rw [subWS_cons_cons, if_pos hc, if_neg hd] at heq
          cases a with
          | nil =>
            obtain ⟨y, d1r, rfl⟩ := List.exists_cons_of_ne_nil hd1
            have heqN : ' ' :: subWS (d :: rest)
                = y :: (d1r ++ w1 ++ '/' :: (w2 ++ d2 ++ b)) := by
              rw [heq] <;> simp [List.append_assoc]
            injection heqN with h1 h2
            have hy := hd1d y (List.mem_cons_self _ _)
            rw [← h1] at hy
            exact absurd hy (by decide)
          | cons x a' =>
            have heqN : ' ' :: subWS (d :: rest)
                = x :: (a' ++ d1 ++ w1 ++ '/' :: (w2 ++ d2 ++ b)) := by
              rw [heq] <;> simp [List.append_assoc]
            injection heqN with h1 h2
            have h2' : subWS (d :: rest) = a' ++ d1 ++ w1 ++ '/' :: (w2 ++ d2 ++ b) := by
              rw [h2] <;> simp [List.append_assoc]
            exact MatchesPT_cons (ih a' d1 w1 w2 d2 b h2' hd1 hd1d hw1 hw2 hd2 hd2d)
      · rw [subWS_cons_cons, if_neg hc] at heq
        cases a with
        | nil =>
          obtain ⟨y, d1r, rfl⟩ := List.exists_cons_of_ne_nil hd1
          have heqN : c :: subWS (d :: rest)
              = y :: (d1r ++ w1 ++ '/' :: (w2 ++ d2 ++ b)) := by
            rw [heq] <;> simp [List.append_assoc]
          injection heqN with h1 h2
          have h2' : subWS (d :: rest) = d1r ++ w1 ++ '/' :: (w2 ++ d2 ++ b) := by
            rw [h2] <;> simp [List.append_assoc]
          obtain ⟨w1', w2', b', hb', hw1', hw2'⟩ := subWS_digits_slash d1r (d :: rest)
            w1 w2 d2 b h2' (fun z hz => hd1d z (List.mem_cons_of_mem _ hz)) hw1 hw2 hd2d hd2
          refine ⟨[], y :: d1r, w1', w2', d2, b', ?_, by simp, hd1d, hw1', hw2', hd2, hd2d,
            rfl, rfl⟩
          have hre : ([] : Str) ++ (y :: d1r) ++ w1' ++ '/' :: (w2' ++ d2 ++ b')
              = y :: (d1r ++ w1' ++ '/' :: (w2' ++ d2 ++ b')) := by
            simp [List.append_assoc]
          rw [hre, ← hb', h1]
        | cons x a' =>
          have heqN : c :: subWS (d :: rest)
              = x :: (a' ++ d1 ++ w1 ++ '/' :: (w2 ++ d2 ++ b)) := by
            rw [heq] <;> simp [List.append_assoc]
          injection heqN with h1 h2
          have h2' : subWS (d :: rest) = a' ++ d1 ++ w1 ++ '/' :: (w2 ++ d2 ++ b) := by
            rw [h2] <;> simp [List.append_assoc]
          exact MatchesPT_cons (ih a' d1 w1 w2 d2 b h2' hd1 hd1d hw1 hw2 hd2 hd2d)

lemma MatchesPT_of_subWS {l : Str} {p t : Nat} (h : MatchesPT (subWS l) p t) :
    MatchesPT l p t := by
  obtain ⟨a, d1, w1, w2, d2, b, heq, hd1, hd1d, hw1, hw2, hd2, hd2d, rfl, rfl⟩ := h
  exact subWS_full_decomp l a d1 w1 w2 d2 b heq hd1 hd1d hw1 hw2 hd2 hd2d

lemma MatchesPT_append_left {u l : Str} {p t : Nat} (h : MatchesPT l p t) :
    MatchesPT (u ++ l) p t := by
  obtain ⟨a, d1, w1, w2, d2, b, rfl, hs⟩ := h
  exact ⟨u ++ a, d1, w1, w2, d2, b, by simp [List.append_assoc], hs⟩

lemma MatchesPT_append_right {l v : Str} {p t : Nat} (h : MatchesPT l p t) :
    MatchesPT (l ++ v) p t := by
  obtain ⟨a, d1, w1, w2, d2, b, rfl, hd1, hd1d, hw1, hw2, hd2, hd2d, hp, ht⟩ := h
  refine ⟨a, d1, w1, w2, d2, b ++ v, ?_, hd1, hd1d, hw1, hw2, hd2, hd2d, hp, ht⟩
  simp [List.append_assoc]

lemma pyStrip_sandwich (l : Str) : ∃ u v, l = u ++ pyStrip l ++ v := by
  have h1 : l.dropWhile pyIsSpace
      = pyStrip l ++ ((l.dropWhile pyIsSpace).reverse.takeWhile pyIsSpace).reverse := by
    unfold pyStrip
    conv_lhs => rw [← List.reverse_reverse (List.dropWhile pyIsSpace l)]
    conv_lhs => rw [← List.takeWhile_append_dropWhile (p := pyIsSpace)
      (l := (List.dropWhile pyIsSpace l).reverse)]
    rw [List.reverse_append]
  refine ⟨l.takeWhile pyIsSpace,
    ((l.dropWhile pyIsSpace).reverse.takeWhile pyIsSpace).reverse, ?_⟩
  rw [List.append_assoc, ← h1]
  exact (List.takeWhile_append_dropWhile (p := pyIsSpace) (l := l)).symm

lemma MatchesPT_of_pyStrip {l : Str} {p t : Nat} (h : MatchesPT (pyStrip l) p t) :
    MatchesPT l p t := by
  obtain ⟨u, v, hl⟩ := pyStrip_sandwich l
  rw [hl]
  exact MatchesPT_append_right (MatchesPT_append_left h)

lemma MatchesPT_of_normPT {s : Str} {p t : Nat} (h : MatchesPT (normPT s) p t) :
    MatchesPT s p t := by
  rw [normPT_eq_subWS_pyStrip] at h
  exact MatchesPT_of_pyStrip (MatchesPT_of_subWS h)

lemma HasPT_normPT_iff (s : Str) : HasPT (normPT s) ↔ HasPT s := by
  constructor
  · intro h
    obtain ⟨p, t, hm⟩ := h
    exact ⟨p, t, MatchesPT_of_normPT hm⟩
  · intro h
    obtain ⟨p, t, hm⟩ := h
    have h1 := hasPT0b_filter_of_MatchesPT hm
    rw [← filter_nonspace_normPT] at h1
    exact HasPT_of_hasPT0b_filter h1

lemma findPT_normPT_none_iff (s : Str) : findPT (normPT s) = none ↔ ¬ HasPT s := by
  constructor
  · intro h hcontra
    have h1 := findPT_isSome_of_HasPT ((HasPT_normPT_iff s).mpr hcontra)
    rw [h] at h1
    exact absurd h1 (by simp)
  · intro h
    cases hf : findPT (normPT s) with
    | none => rfl
    | some pt =>
      cases pt with
      | mk p t =>
        have hm := MatchesPT_of_normPT (findPT_sound hf)
        exact absurd ⟨p, t, hm⟩ h

lemma findPT_normPT_some {s : Str} {p t : Nat}
    (h : findPT (normPT s) = some (p, t)) : MatchesPT s p t :=
  MatchesPT_of_normPT (findPT_sound h)

/-- Numeric value of a `digits` integer part plus optional `digits` fractional
part, as Python `float(...)` of the captured text (modelled exactly in `ℚ`). -/
def ratOfParts (d1 d2 : Str) : ℚ :=
  (digitsToNat d1 : ℚ) + (digitsToNat d2 : ℚ) / (10 : ℚ) ^ d2.length

/-- One anchored attempt of `(\d+(?:\.\d+)?)\s*%` (get_attendance.py lines 63
and 264).  Greedy backtracking is resolved statically: shrinking a digit run
never helps (the next character would be a digit, matching neither `\.`, `\s`
nor `%`), so only the with-fraction and without-fraction alternatives are
tried, in that order. -/
def tryMatchPct (l : Str) : Option ℚ :=
  if (l.takeWhile Char.isDigit).isEmpty then none
  else
    match l.dropWhile Char.isDigit with
    | '.' :: r2 =>
      if (r2.takeWhile Char.isDigit).isEmpty then none
      else
        match (r2.dropWhile Char.isDigit).dropWhile pyIsSpace with
        | '%' :: _ =>
          some (ratOfParts (l.takeWhile Char.isDigit) (r2.takeWhile Char.isDigit))
        | _ => none
    | r1 =>
      match r1.dropWhile pyIsSpace with
      | '%' :: _ => some (ratOfParts (l.takeWhile Char.isDigit) [])
      | _ => none

/-- `re.search(r'(\d+(?:\.\d+)?)\s*%', l)`, returning the numeric value of
group 1. -/
def findPct : Str → Option ℚ
  | [] => none
  | c :: rest =>
    match tryMatchPct (c :: rest) with
    | some v => some v
    | none => findPct rest

/-- One anchored attempt of `(\d+(?:\.\d+)?)%` (no whitespace before the
percent sign; get_attendance.py line 339).  This is also the literal reading
of the spec's words "a number immediately followed by a % sign". -/
def tryMatchPctI (l : Str) : Option ℚ :=
  if (l.takeWhile Char.isDigit).isEmpty then none
  else
    match l.dropWhile Char.isDigit with
    | '.' :: r2 =>
      if (r2.takeWhile Char.isDigit).isEmpty then none
      else
        match r2.dropWhile Char.isDigit with
        | '%' :: _ =>
          some (ratOfParts (l.takeWhile Char.isDigit) (r2.takeWhile Char.isDigit))
        | _ => none
    | r1 =>
      match r1 with
      | '%' :: _ => some (ratOfParts (l.takeWhile Char.isDigit) [])
      | _ => none

/-- `re.search(r'(\d+(?:\.\d+)?)%', l)`, returning the numeric value of
group 1. -/
def findPctI : Str → Option ℚ
  | [] => none
  | c :: rest =>
    match tryMatchPctI (c :: rest) with
    | some v => some v
    | none => findPctI rest

/-- One anchored attempt of the bare number pattern `(\d+(?:\.\d+)?)`. -/
def tryMatchNum (l : Str) : Option ℚ :=
  if (l.takeWhile Char.isDigit).isEmpty then none
  else
    match l.dropWhile Char.isDigit with
    | '.' :: r2 =>
      if (r2.takeWhile Char.isDigit).isEmpty then
        some (ratOfParts (l.takeWhile Char.isDigit) [])
      else some (ratOfParts (l.takeWhile Char.isDigit) (r2.takeWhile Char.isDigit))
    | _ => some (ratOfParts (l.takeWhile Char.isDigit) [])

/-- `re.search(r'(\d+(?:\.\d+)?)', l)`, returning the numeric value. -/
def findNum : Str → Option ℚ
  | [] => none
  | c :: rest =>
    match tryMatchNum (c :: rest) with
    | some v => some v
    | none => findNum rest

/-- Gross-attendance extraction (get_attendance.py lines 63-68 and 264-270):
try the percent pattern first, fall back to the bare number pattern. -/
def extractGross (t : Str) : Option ℚ :=
  match findPct t with
  | some v => some v
  | none => findNum t

/-- The claim's reading of the same extraction, with the percent sign
required to follow the number immediately; built from `findPctI` to compare
against `extractGross`. -/
def extractGrossImmediate (t : Str) : Option ℚ :=
  match findPctI t with
  | some v => some v
  | none => findNum t

lemma percent_mem_of_tryMatchPct {l : Str} {v : ℚ} (h : tryMatchPct l = some v) :
    '%' ∈ l := by
  unfold tryMatchPct at h
  split at h
  · exact absurd h (by simp)
  · split at h
    · rename_i r2 heq
      split at h
      · exact absurd h (by simp)
      · split at h
        · rename_i rest2 heq2
          have h1 : '%' ∈ (r2.dropWhile Char.isDigit).dropWhile pyIsSpace := by
            rw [heq2]; exact List.mem_cons_self _ _
          have h2 : '%' ∈ r2 :=
            (List.dropWhile_suffix _).subset ((List.dropWhile_suffix _).subset h1)
          have h3 : '%' ∈ l.dropWhile Char.isDigit := by
            rw [heq]; exact List.mem_cons_of_mem _ h2
          exact (List.dropWhile_suffix _).subset h3
        · exact absurd h (by simp)
    · split at h
      · rename_i rest2 heq2
        have h1 : '%' ∈ (l.dropWhile Char.isDigit).dropWhile pyIsSpace := by
          rw [heq2]; exact List.mem_cons_self _ _
        have h2 : '%' ∈ l.dropWhile Char.isDigit := (List.dropWhile_suffix _).subset h1
        exact (List.dropWhile_suffix _).subset h2
      · exact absurd h (by simp)

lemma percent_mem_of_findPct {l : Str} {v : ℚ} (h : findPct l = some v) :
    '%' ∈ l := by
  induction l with
  | nil => simp [findPct] at h
  | cons c r ih =>
    rw [findPct] at h
    cases htm : tryMatchPct (c :: r) with
    | some w =>
      exact percent_mem_of_tryMatchPct htm
    | none =>
      rw [htm] at h
      exact List.mem_cons_of_mem _ (ih h)

lemma findPct_eq_none_of_no_percent {l : Str} (h : '%' ∉ l) : findPct l = none := by
  cases hf : findPct l with
  | none => rfl
  | some v => exact absurd (percent_mem_of_findPct hf) h

/-- Python's `in` operator on strings: substring containment. -/
def containsSub : Str → Str → Bool
  | [], pat => pat.isEmpty
  | c :: rest, pat => pat.isPrefixOf (c :: rest) || containsSub rest pat

/-- Python `str.lower()` restricted to ASCII. -/
def toLowerStr (s : Str) : Str := s.map Char.toLower

/-- Python `' '.join(parts)`. -/
def joinSpace : List Str → Str
  | [] => []
  | [x] => x
  | x :: y :: rest => x ++ ' ' :: joinSpace (y :: rest)

/-- The fixed keyword set used to classify a table as attendance-relevant
(get_attendance.py line 288). -/
def attendanceKeywords : List Str :=
  [chars "course", chars "subject", chars "attendance", chars "present",
   chars "percentage"]

/-- The lower-cased, space-joined text of the header row's cells. -/
def headerJoined (headerRow : List Str) : Str :=
  joinSpace (headerRow.map (fun cell => toLowerStr (pyStrip cell)))

/-- Header classification: any keyword occurs in the joined header text. -/
def isAttendanceHeader (headerRow : List Str) : Bool :=
  attendanceKeywords.any (fun w => containsSub (headerJoined headerRow) w)

/-- Records extracted from one table (get_attendance.py lines 279-297):
skip tables with fewer than 2 rows, classify by the header row, zip stripped
header cells with stripped data cells, keep rows with at least one non-empty
cell.  A RawRecord is the zipped pair list; Python's `dict(zip(...))` over it
is modelled by `dictGet` below. -/
def rowRecord (headerRow row : List Str) : Option (List (Str × Str)) :=
  let cells := row.map pyStrip
  if !cells.isEmpty && cells.any (fun cell => !cell.isEmpty) then
    some ((headerRow.map pyStrip).zip cells)
  else none

def extractTableRecords (tbl : List (List Str)) : List (List (Str × Str)) :=
  match tbl with
  | [] => []
  | headerRow :: dataRows =>
    if (headerRow :: dataRows).length < 2 then []
    else if isAttendanceHeader headerRow then
      dataRows.filterMap (rowRecord headerRow)
    else []

/-- All records of a document's tables, merged in document order. -/
def extractAllTables (tables : List (List (List Str))) : List (List (Str × Str)) :=
  tables.foldr (fun t acc => extractTableRecords t ++ acc) []

/-- `dict(pairs).get(k)`: with duplicate keys the last value wins, as in
Python dict construction. -/
def dictGet (r : List (Str × Str)) (k : Str) : Option Str :=
  ((r.filter (fun p => p.1 == k)).getLast?).map (fun p => p.2)

/-- A cleaned attendance record (get_attendance.py lines 342-350). -/
structure Cleaned where
  course_code : Str
  class_type : Str
  present : Option Nat
  total : Option Nat
  percentage : Option ℚ
  raw_present_total : Str
  raw_percentage : Str
  course_name : Option Str
deriving DecidableEq

def kCourse : Str := chars "Course"
def kClassType : Str := chars "Class Type"
def kPercentage : Str := chars "Percentage"
def kPT1 : Str := chars "Present / Total"
def kPT2 : Str := chars "Present/Total"
def kCourseCode : Str := chars "Course Code"
def kCourseName : Str := chars "Course Name"

/-- Overwrite-or-append update of the `course_names` dict. -/
def assocUpdate (m : List (Str × Str)) (k v : Str) : List (Str × Str) :=
  if m.any (fun p => p.1 == k) then
    m.map (fun p => if p.1 == k then (k, v) else p)
  else m ++ [(k, v)]

/-- Python dict lookup in an association list whose keys are unique. -/
def assocFind (m : List (Str × Str)) (k : Str) : Option Str :=
  (m.find? (fun p => p.1 == k)).map (fun p => p.2)

/-- First pass of `clean_attendance_data`: collect the code → name table
(get_attendance.py lines 308-313). -/
def courseNamesOf (raw : List (List (Str × Str))) : List (Str × Str) :=
  raw.foldl (fun m r =>
    match dictGet r kCourseCode, dictGet r kCourseName with
    | some code, some nm => assocUpdate m (pyStrip code) (pyStrip nm)
    | _, _ => m) []

/-- Second pass of `clean_attendance_data`, one record
(get_attendance.py lines 316-356): requires the `Course`, `Class Type` and
`Percentage` keys, normalizes the `Present / Total` cell with `normPT`, and
extracts the integer pair and the percentage number. -/
def cleanRecord (names : List (Str × Str)) (r : List (Str × Str)) : Option Cleaned :=
  match dictGet r kCourse, dictGet r kClassType, dictGet r kPercentage with
  | some c, some ct, some pct =>
    let course := pyStrip c
    let class_type := pyStrip ct
    let percentage := pyStrip pct
    let present_total := normPT (match dictGet r kPT1 with
      | some v => v
      | none => (dictGet r kPT2).getD [])
    some { course_code := course
           class_type := class_type
           present := (findPT present_total).map (fun q => q.1)
           total := (findPT present_total).map (fun q => q.2)
           percentage := findPctI percentage
           raw_present_total := present_total
           raw_percentage := percentage
           course_name := assocFind names course }
  | _, _, _ => none

/-- `clean_attendance_data` (get_attendance.py lines 302-358). -/
def clean_attendance_data (raw : List (List (Str × Str))) : List Cleaned :=
  raw.filterMap (cleanRecord (courseNamesOf raw))

/-- Python `round(q, 2)` on an exact rational: round half to even. -/
def pyRound2 (q : ℚ) : ℚ :=
  if q * 100 - (⌊q * 100⌋ : ℚ) < 1 / 2 then (⌊q * 100⌋ : ℚ) / 100
  else if 1 / 2 < q * 100 - (⌊q * 100⌋ : ℚ) then ((⌊q * 100⌋ : ℚ) + 1) / 100
  else if ⌊q * 100⌋ % 2 = 0 then (⌊q * 100⌋ : ℚ) / 100
  else ((⌊q * 100⌋ : ℚ) + 1) / 100

/-- `sum(record['present'] or 0 for record in cleaned_data)`
(get_attendance.py line 374). -/
def totPresent (l : List Cleaned) : Nat := (l.map (fun r => r.present.getD 0)).sum

/-- `sum(record['total'] or 0 for record in cleaned_data)`
(get_attendance.py line 375). -/
def totClasses (l : List Cleaned) : Nat := (l.map (fun r => r.total.getD 0)).sum

/-- One entry of the per-subject grouping (get_attendance.py lines 401-409;
`percentage` is filled by a second pass, lines 412-416). -/
structure Subject where
  course_name : Str
  course_code : Str
  class_type : Str
  total_present : Nat
  total_classes : Nat
  classes : List Cleaned
  percentage : ℚ
deriving DecidableEq

def natToChars (n : Nat) : Str := Nat.toDigits 10 n

/-- `f"{course}_{class_type}_{present}_{total}"` with the `or 0` coercions
(get_attendance.py line 389). -/
def recordId (r : Cleaned) : Str :=
  r.course_code ++ '_' :: r.class_type ++ '_' :: natToChars (r.present.getD 0)
    ++ '_' :: natToChars (r.total.getD 0)

/-- `f"{course}_{class_type}"` (get_attendance.py line 397). -/
def subjectKey (r : Cleaned) : Str := r.course_code ++ '_' :: r.class_type

/-- `f"{record.get('course_name', course)} ({class_type})"`
(get_attendance.py line 398). -/
def displayName (r : Cleaned) : Str :=
  (r.course_name.getD r.course_code) ++ ' ' :: '(' :: r.class_type ++ [')']

/-- State of the grouping loop: the insertion-ordered subjects dict and the
`seen_combinations` set (membership is all that matters for the set). -/
structure SubjState where
  subjects : List (Str × Subject)
  seen : List Str
deriving DecidableEq

/-- One iteration of the grouping loop (get_attendance.py lines 382-409). -/
def subjStep (st : SubjState) (r : Cleaned) : SubjState :=
  let rid := recordId r
  if rid ∈ st.seen then st
  else
    let st1 : SubjState := { st with seen := rid :: st.seen }
    let key := subjectKey r
    if st1.subjects.any (fun p => p.1 == key) then st1
    else { st1 with subjects := st1.subjects ++ [(key,
      { course_name := displayName r
        course_code := r.course_code
        class_type := r.class_type
        total_present := r.present.getD 0
        total_classes := r.total.getD 0
        classes := [r]
        percentage := 0 })] }

def subjPhase (l : List Cleaned) (st : SubjState) : SubjState := l.foldl subjStep st

/-- Second pass over the subjects dict (get_attendance.py lines 412-416);
note this percentage is not rounded. -/
def finishSubjects (subs : List (Str × Subject)) : List (Str × Subject) :=
  subs.map (fun p => (p.1, { p.2 with percentage :=
    if 0 < p.2.total_classes then
      (p.2.total_present : ℚ) / (p.2.total_classes : ℚ) * 100
    else 0 }))

/-- The summary dict; absent keys are `none`. -/
structure Summary where
  gross_attendance : Option ℚ := none
  total_present : Option Nat := none
  total_classes : Option Nat := none
  calculated_percentage : Option ℚ := none
  total_records : Option Nat := none
  subjects : Option (List (Str × Subject)) := none
  overall_percentage : Option ℚ := none
  student_id : Option Str := none
deriving DecidableEq

/-- `generate_summary` (get_attendance.py lines 361-433). -/
def generate_summary (cleaned : List Cleaned) (gross : Option ℚ) : Summary :=
  let base : Summary := { gross_attendance := gross }
  if cleaned.isEmpty then base
  else
    let tp := totPresent cleaned
    let tc := totClasses cleaned
    let calcPct : ℚ := if 0 < tc then (tp : ℚ) / (tc : ℚ) * 100 else 0
    let subs := finishSubjects (subjPhase cleaned ⟨[], []⟩).subjects
    { base with
      total_present := some tp
      total_classes := some tc
      calculated_percentage := some (pyRound2 calcPct)
      total_records := some cleaned.length
      subjects := some subs
      overall_percentage := some (match gross with
        | some g => g
        | none => pyRound2 calcPct) }

/-- A Python value as far as the input validation of
`get_student_attendance` can observe it: a string, or a non-string value of
known truthiness. -/
inductive PyVal
  | pystr (s : Str)
  | other (truthy : Bool)
deriving DecidableEq

def pyTruthy : PyVal → Bool
  | .pystr s => !s.isEmpty
  | .other b => b

def pyIsStrVal : PyVal → Bool
  | .pystr _ => true
  | .other _ => false

def pyStrOf : PyVal → Str
  | .pystr s => s
  | .other _ => []

/-- An HTML document as observed by the scraper's BeautifulSoup queries: the
dashboard marker div `pnlGrossAtt`, an anchor whose href contains
`dlAppList`, the text of the `lblPopGrossAtt` element, and the cell texts of
all tables. -/
structure Doc where
  hasPnlGrossAtt : Bool
  hasAppListAnchor : Bool
  lblPopGrossAtt : Option Str
  tables : List (List (List Str))

/-- The portal's responses for one navigation, abstracting the network: the
status codes of the four HTTP exchanges and the documents they return.  The
hidden form tokens only feed request payloads, never control flow, so they
are not modelled. -/
structure Env where
  loginPageStatus : Nat
  loginPostStatus : Nat
  loginResultDoc : Doc
  navPostStatus : Nat
  navDoc : Doc
  attPostStatus : Nat
  attDoc : Doc

/-- The tagged failure reasons of `login_to_portal`, one per `return None`
path (each is accompanied by a distinct printed message in the source). -/
inductive LoginFailure
  | loginPageUnreachable
  | loginRequestFailed
  | noApplicationLink
  | dashboardPostbackFailed
deriving DecidableEq

/-- `login_to_portal` (get_attendance.py lines 144-215). -/
def login_to_portal (e : Env) : Except LoginFailure Doc :=
  if e.loginPageStatus ≠ 200 then .error .loginPageUnreachable
  else if e.loginPostStatus ≠ 200 then .error .loginRequestFailed
  else if e.loginResultDoc.hasPnlGrossAtt then .ok e.loginResultDoc
  else if e.loginResultDoc.hasAppListAnchor then
    (if e.navPostStatus = 200 then .ok e.navDoc else .error .dashboardPostbackFailed)
  else .error .noApplicationLink

/-- `get_attendance_page` (get_attendance.py lines 218-247); calling it at
all is what issues the attendance postback. -/
def get_attendance_page (e : Env) : Option Doc :=
  if e.attPostStatus = 200 then some e.attDoc else none

/-- `extract_attendance_tables` (get_attendance.py lines 250-299): the merged
table records plus the gross figure parsed from `lblPopGrossAtt`. -/
def extract_attendance_tables (doc : Doc) : List (List (Str × Str)) × Option ℚ :=
  (extractAllTables doc.tables,
   match doc.lblPopGrossAtt with
   | some txt => extractGross (pyStrip txt)
   | none => none)

/-- The result dict of `get_student_attendance`. -/
structure AttendanceResult where
  success : Bool
  data : List Cleaned
  message : Str
  summary : Summary
deriving DecidableEq

inductive PyError
  | valueError
deriving DecidableEq

def msgLoginFailed (sid : Str) : Str :=
  chars "Failed to login for student " ++ sid ++ chars ". Please check your credentials."

def msgDetailFailed (sid : Str) : Str :=
  chars "Failed to access detailed attendance page for student " ++ sid

def msgNoData (sid : Str) : Str :=
  chars "No attendance data found for student " ++ sid

/-- The success messages interpolate the overall percentage and record
count; the numeric formatting is elided from the embedding. -/
def msgRetrieved (sid : Str) : Str :=
  chars "Attendance for student " ++ sid ++ chars " retrieved"

/-- `get_student_attendance` (get_attendance.py lines 18-125).  The returned
`Bool` records whether the detailed-attendance postback was issued
(`get_attendance_page` reached).  The `Option (Option ℚ)` value `dashGross`
models the `locals()` test on line 98: `none` means the name
`gross_attendance` is unbound (no `lblPopGrossAtt` element on the
dashboard), `some g` means it is bound to `g` (which is itself `none` when
the element's text had no parseable number). -/
def get_student_attendance (sidV pwdV : PyVal) (e : Env) :
    Except PyError (AttendanceResult × Bool) :=
  if !pyTruthy sidV || !pyTruthy pwdV then .error .valueError
  else if !(pyIsStrVal sidV && pyIsStrVal pwdV) then .error .valueError
  else
    let sid := pyStrOf sidV
    .ok (match login_to_portal e with
    | .error _ =>
      ({ success := false, data := [], message := msgLoginFailed sid, summary := {} },
       false)
    | .ok dash =>
      let dashGross : Option (Option ℚ) :=
        dash.lblPopGrossAtt.map (fun t => extractGross (pyStrip t))
      match dashGross with
      | some (some g) =>
        ({ success := true, data := [], message := msgRetrieved sid,
           summary := { gross_attendance := some g, overall_percentage := some g,
                        student_id := some sid } }, false)
      | _ =>
        match get_attendance_page e with
        | none =>
          ({ success := false, data := [], message := msgDetailFailed sid,
             summary := {} }, true)
        | some att =>
          let ext := extract_attendance_tables att
          let cleaned := clean_attendance_data ext.1
          let finalGross : Option ℚ := match dashGross with
            | some g => g
            | none => ext.2
          if cleaned.isEmpty && finalGross.isNone then
            ({ success := false, data := [], message := msgNoData sid,
               summary := {} }, true)
          else
            ({ success := true, data := cleaned, message := msgRetrieved sid,
               summary := { generate_summary cleaned finalGross with
                            student_id := some sid } }, true))

lemma ratOfParts_int (d : Str) : ratOfParts d [] = (digitsToNat d : ℚ) := by
  simp [ratOfParts, digitsToNat]

lemma pyRound2_intCast (z : ℤ) : pyRound2 (z : ℚ) = z := by
  unfold pyRound2
  have h1 : ((z : ℚ)) * 100 = ((z * 100 : ℤ) : ℚ) := by push_cast; ring
  rw [h1, Int.floor_intCast]
  rw [if_pos (by norm_num)]
  push_cast
  field_simp

lemma generate_summary_cons (a : Cleaned) (t : List Cleaned) (g : Option ℚ) :
    generate_summary (a :: t) g =
      { gross_attendance := g
        total_present := some (totPresent (a :: t))
        total_classes := some (totClasses (a :: t))
        calculated_percentage := some (pyRound2 (if 0 < totClasses (a :: t) then
          (totPresent (a :: t) : ℚ) / (totClasses (a :: t) : ℚ) * 100 else 0))
        total_records := some (a :: t).length
        subjects := some (finishSubjects (subjPhase (a :: t) ⟨[], []⟩).subjects)
        overall_percentage := some (match g with
          | some x => x
          | none => pyRound2 (if 0 < totClasses (a :: t) then
              (totPresent (a :: t) : ℚ) / (totClasses (a :: t) : ℚ) * 100 else 0))
        student_id := none } := rfl

lemma totPresent_append (l1 l2 : List Cleaned) :
    totPresent (l1 ++ l2) = totPresent l1 + totPresent l2 := by
  simp [totPresent]

lemma totClasses_append (l1 l2 : List Cleaned) :
    totClasses (l1 ++ l2) = totClasses l1 + totClasses l2 := by
  simp [totClasses]

lemma subjStep_seen_mono {st : SubjState} {x : Str} (r : Cleaned)
    (h : x ∈ st.seen) : x ∈ (subjStep st r).seen := by
  unfold subjStep
  by_cases h1 : recordId r ∈ st.seen
  · rw [if_pos h1]; exact h
  · rw [if_neg h1]
    by_cases h2 : ({ st with seen := recordId r :: st.seen } : SubjState).subjects.any
        (fun p => p.1 == subjectKey r)
    · rw [if_pos h2]; exact List.mem_cons_of_mem _ h
    · rw [if_neg h2]; exact List.mem_cons_of_mem _ h

lemma subjStep_seen_self (st : SubjState) (r : Cleaned) :
    recordId r ∈ (subjStep st r).seen := by
  unfold subjStep
  by_cases h1 : recordId r ∈ st.seen
  · rw [if_pos h1]; exact h1
  · rw [if_neg h1]
    by_cases h2 : ({ st with seen := recordId r :: st.seen } : SubjState).subjects.any
        (fun p => p.1 == subjectKey r)
    · rw [if_pos h2]; exact List.mem_cons_self _ _
    · rw [if_neg h2]; exact List.mem_cons_self _ _

lemma subjPhase_seen_mono {x : Str} :
    ∀ (l : List Cleaned) (st : SubjState), x ∈ st.seen → x ∈ (subjPhase l st).seen := by
  intro l
  induction l with
  | nil => intro st h; exact h
  | cons r t ih => intro st h; exact ih (subjStep st r) (subjStep_seen_mono r h)

lemma subjPhase_seen_of_mem :
    ∀ (l : List Cleaned) (st : SubjState) (r : Cleaned), r ∈ l →
      recordId r ∈ (subjPhase l st).seen := by
  intro l
  induction l with
  | nil => intro st r h; exact absurd h (List.not_mem_nil _)
  | cons a t ih =>
    intro st r h
    rcases List.mem_cons.mp h with rfl | h
    · exact subjPhase_seen_mono t (subjStep st r) (subjStep_seen_self st r)
    · exact ih (subjStep st a) r h

lemma subjPhase_skip :
    ∀ (l : List Cleaned) (st : SubjState), (∀ r ∈ l, recordId r ∈ st.seen) →
      subjPhase l st = st := by
  intro l
  induction l with
  | nil => intro st _; rfl
  | cons a t ih =>
    intro st h
    have h1 : subjStep st a = st := by
      unfold subjStep
      rw [if_pos (h a (List.mem_cons_self _ _))]
    show subjPhase t (subjStep st a) = st
    rw [h1]
    exact ih st (fun r hr => h r (List.mem_cons_of_mem _ hr))

lemma subjPhase_append (l1 l2 : List Cleaned) (st : SubjState) :
    subjPhase (l1 ++ l2) st = subjPhase l2 (subjPhase l1 st) := by
  unfold subjPhase
  exact List.foldl_append _ _ _ _

lemma subjPhase_self_append (l : List Cleaned) (st : SubjState) :
    subjPhase (l ++ l) st = subjPhase l st := by
  rw [subjPhase_append]
  exact subjPhase_skip l (subjPhase l st)
    (fun r hr => subjPhase_seen_of_mem l st r hr)

lemma generate_summary_subjects_idem (l : List Cleaned) (g : Option ℚ) :
    (generate_summary (l ++ l) g).subjects = (generate_summary l g).subjects := by
  cases l with
  | nil => rfl
  | cons a t =>
    have h1 : (a :: t) ++ (a :: t) = a :: (t ++ a :: t) := by simp
    rw [h1, generate_summary_cons, generate_summary_cons]
    simp only
    rw [show a :: (t ++ a :: t) = (a :: t) ++ (a :: t) from by simp,
      subjPhase_self_append]

lemma containsSub_spec (l pat : Str) : containsSub l pat = true ↔ pat <:+: l := by
  induction l with
  | nil =>
    simp [containsSub, List.isEmpty_iff, List.infix_nil]
  | cons c rest ih =>
    rw [containsSub, Bool.or_eq_true, List.infix_cons_iff,
      List.isPrefixOf_iff_prefix, ih]

lemma length_filterMap_congr {α β : Type} (f g : α → Option β) :
    ∀ l : List α, (∀ x ∈ l, (f x).isSome = (g x).isSome) →
      (l.filterMap f).length = (l.filterMap g).length := by
  intro l
  induction l with
  | nil => intro _; rfl
  | cons x t ih =>
    intro h
    have hx := h x (List.mem_cons_self _ _)
    have ht := ih (fun y hy => h y (List.mem_cons_of_mem _ hy))
    rw [List.filterMap_cons, List.filterMap_cons]
    cases hfx : f x with
    | none =>
      cases hgx : g x with
      | none => exact ht
      | some b => rw [hfx, hgx] at hx; exact absurd hx (by simp)
    | some b =>
      cases hgx : g x with
      | none => rw [hfx, hgx] at hx; exact absurd hx (by simp)
      | some b' => simpa using ht

lemma cleanRecord_isSome_congr (n n' : List (Str × Str)) (r : List (Str × Str)) :
    (cleanRecord n r).isSome = (cleanRecord n' r).isSome := by
  rcases h1 : dictGet r kCourse with _ | c <;>
    rcases h2 : dictGet r kClassType with _ | ct <;>
      rcases h3 : dictGet r kPercentage with _ | p <;>
        simp [cleanRecord, h1, h2, h3]

lemma clean_attendance_data_self_append_length (raw : List (List (Str × Str))) :
    (clean_attendance_data (raw ++ raw)).length
      = 2 * (clean_attendance_data raw).length := by
  unfold clean_attendance_data
  rw [List.filterMap_append]
  rw [List.length_append]
  have h := length_filterMap_congr (cleanRecord (courseNamesOf (raw ++ raw)))
    (cleanRecord (courseNamesOf raw)) raw
    (fun r _ => cleanRecord_isSome_congr _ _ r)
  rw [h]
  ring

/-- A document with no useful content, and an otherwise all-200 portal: used
as the concrete environment of witnesses. -/
def doc0 : Doc :=
  { hasPnlGrossAtt := false, hasAppListAnchor := false,
    lblPopGrossAtt := none, tables := [] }

def env0 : Env :=
  { loginPageStatus := 200, loginPostStatus := 200, loginResultDoc := doc0,
    navPostStatus := 200, navDoc := doc0, attPostStatus := 200, attDoc := doc0 }

/-- A login response that is already the dashboard and shows a gross
attendance of 76.5%. -/
def doc9 : Doc :=
  { hasPnlGrossAtt := true, hasAppListAnchor := false,
    lblPopGrossAtt := some (chars "76.5%"), tables := [] }

def env9 : Env := { env0 with loginResultDoc := doc9 }

def rec18 : Cleaned :=
  { course_code := chars "CS101", class_type := chars "LECT",
    present := some 18, total := some 20, percentage := some 90,
    raw_present_total := chars "18 / 20", raw_percentage := chars "90%",
    course_name := none }

def rec9 : Cleaned :=
  { course_code := chars "MA102", class_type := chars "LECT",
    present := some 9, total := some 10, percentage := some 90,
    raw_present_total := chars "9 / 10", raw_percentage := chars "90%",
    course_name := none }

def rec37 : Cleaned :=
  { course_code := chars "CS101", class_type := chars "LECT",
    present := some 37, total := some 50, percentage := some 74,
    raw_present_total := chars "37 / 50", raw_percentage := chars "74%",
    course_name := none }

def rec13 : Cleaned :=
  { course_code := chars "CS101", class_type := chars "LECT",
    present := some 1, total := some 3, percentage := none,
    raw_present_total := chars "1 / 3", raw_percentage := chars "",
    course_name := none }

def recNull : Cleaned :=
  { course_code := chars "CS101", class_type := chars "LAB",
    present := none, total := none, percentage := none,
    raw_present_total := chars "", raw_percentage := chars "",
    course_name := none }

/-- A raw table record with the three required keys and a present/total cell. -/
def rawRec : List (Str × Str) :=
  [(chars "Course", chars "CS101"), (chars "Class Type", chars "LECT"),
   (chars "Percentage", chars "90%"), (chars "Present / Total", chars "18 / 20")]

/-- A qualifying attendance table: keyword header plus three non-empty data
rows. -/
def qualTable : List (List Str) :=
  [[chars "Course", chars "Percentage"],
   [chars "CS101", chars "90%"],
   [chars "MA102", chars "80%"],
   [chars "PH103", chars "70%"]]

/-- A decorative table whose header mentions no attendance keyword. -/
def decoTable : List (List Str) :=
  [[chars "Menu", chars "Links"],
   [chars "Home", chars "About"]]

/-- C2 counterexample: with an empty cleaned list and a present gross figure,
`generate_summary` returns early and the summary has no `overall_percentage`
key at all, so it is not set to the gross figure as the claim demands. -/
theorem C2_counterexample :
    (generate_summary [] (some (153/2 : ℚ))).overall_percentage
      ≠ some (153/2 : ℚ) := by
  rw [show (generate_summary [] (some (153/2 : ℚ))).overall_percentage = none from rfl]
  simp

/-- C2 (amended): for every non-empty list of cleaned records,
`generate_summary` sets `overall_percentage` to the gross figure when one is
present and to `calculated_percentage` otherwise; when the list is empty the
summary carries no `overall_percentage`.  In particular with gross 76.5 and
one record 37/50 (calculated 74.0) the summary holds both 76.5 and 74.0. -/
theorem C2_theorem :
    (∀ (l : List Cleaned) (x : ℚ), l ≠ [] →
      (generate_summary l (some x)).overall_percentage = some x) ∧
    (∀ l : List Cleaned, l ≠ [] →
      (generate_summary l none).overall_percentage
        = (generate_summary l none).calculated_percentage) ∧
    (generate_summary [rec37] (some (153/2 : ℚ))).overall_percentage
      = some (153/2 : ℚ) ∧
    (generate_summary [rec37] (some (153/2 : ℚ))).calculated_percentage = some 74 := by
  refine ⟨?_, ?_, rfl, ?_⟩
  · intro l x hl
    cases l with
    | nil => exact absurd rfl hl
    | cons a t => rw [generate_summary_cons]
  · intro l hl
    cases l with
    | nil => exact absurd rfl hl
    | cons a t => rw [generate_summary_cons]
  · have h1 : (generate_summary [rec37] (some (153/2 : ℚ))).calculated_percentage
        = some (pyRound2 ((totPresent [rec37] : ℚ) / (totClasses [rec37] : ℚ) * 100)) := rfl
    rw [h1, show totPresent [rec37] = 37 from by decide,
      show totClasses [rec37] = 50 from by decide]
    have h2 : ((37 : ℕ) : ℚ) / ((50 : ℕ) : ℚ) * 100 = ((74 : ℤ) : ℚ) := by
      push_cast
      norm_num
    rw [h2, pyRound2_intCast]
    norm_num

/-- C2 witness: the amended theorem applied at one record and gross 76.5. -/
theorem C2_witness :
    (generate_summary [rec37] (some (153/2 : ℚ))).overall_percentage
      = some (153/2 : ℚ) ∧
    (generate_summary [rec37] none).overall_percentage
      = (generate_summary [rec37] none).calculated_percentage :=
  ⟨C2_theorem.1 [rec37] (153/2 : ℚ) (by simp), C2_theorem.2.1 [rec37] (by simp)⟩

/-- C3 counterexample: for the single record 1/3 the stored
`calculated_percentage` is the rounded 33.33, not the exact
`total_present / total_classes * 100 = 100/3` the claim asserts. -/
theorem C3_counterexample :
    (generate_summary [rec13] none).calculated_percentage = some (3333/100 : ℚ) ∧
    (3333/100 : ℚ) ≠ (totPresent [rec13] : ℚ) / (totClasses [rec13] : ℚ) * 100 := by
  constructor
  · have h1 : (generate_summary [rec13] none).calculated_percentage
        = some (pyRound2 ((totPresent [rec13] : ℚ) / (totClasses [rec13] : ℚ) * 100)) := rfl
    rw [h1, show totPresent [rec13] = 1 from by decide,
      show totClasses [rec13] = 3 from by decide]
    have h2 : ((1 : ℕ) : ℚ) / ((3 : ℕ) : ℚ) * 100 = (100/3 : ℚ) := by
      push_cast
      norm_num
    rw [h2]
    unfold pyRound2
    rw [show ⌊(100/3 : ℚ) * 100⌋ = 3333 from by rw [Int.floor_eq_iff] <;> norm_num]
    rw [if_pos (by norm_num)]
    norm_num
  · rw [show totPresent [rec13] = 1 from by decide,
      show totClasses [rec13] = 3 from by decide]
    push_cast
    norm_num

/-- C3 (amended): for every non-empty cleaned list, `calculated_percentage`
is `round(total_present / total_classes * 100, 2)` when `total_classes > 0`
and `round(0, 2) = 0` otherwise; for the records 18/20 and 9/10 it is
exactly 90.0. -/
theorem C3_theorem (l : List Cleaned) (g : Option ℚ) (h : l ≠ []) :
    (generate_summary l g).calculated_percentage
      = some (pyRound2 (if 0 < totClasses l then
          (totPresent l : ℚ) / (totClasses l : ℚ) * 100 else 0)) ∧
    (generate_summary [rec18, rec9] none).calculated_percentage = some 90 := by
  constructor
  · cases l with
    | nil => exact absurd rfl h
    | cons a t => rw [generate_summary_cons]
  · have h1 : (generate_summary [rec18, rec9] none).calculated_percentage
        = some (pyRound2 ((totPresent [rec18, rec9] : ℚ)
            / (totClasses [rec18, rec9] : ℚ) * 100)) := rfl
    rw [h1, show totPresent [rec18, rec9] = 27 from by decide,
      show totClasses [rec18, rec9] = 30 from by decide]
    have h2 : ((27 : ℕ) : ℚ) / ((30 : ℕ) : ℚ) * 100 = ((90 : ℤ) : ℚ) := by
      push_cast
      norm_num
    rw [h2, pyRound2_intCast]
    norm_num

/-- C3 witness: the amended theorem applied to the single record 18/20. -/
theorem C3_witness :
    (generate_summary [rec18] none).calculated_percentage
      = some (pyRound2 (if 0 < totClasses [rec18] then
          (totPresent [rec18] : ℚ) / (totClasses [rec18] : ℚ) * 100 else 0)) :=
  (C3_theorem [rec18] none (by simp)).1

/-- C4 counterexample: `clean_attendance_data` performs no deduplication, so
feeding the same raw record twice yields two cleaned records, not one — the
claimed count equality fails at this input. -/
theorem C4_counterexample :
    (clean_attendance_data [rawRec, rawRec]).length = 2 ∧
    (clean_attendance_data [rawRec]).length = 1 := by
  constructor
  · decide
  · decide

/-- C4 (amended): the cleaning pass itself keeps duplicates (the cleaned
count of a doubled sequence is exactly twice that of the sequence);
deduplication by the key built from (course_code, class_type, present,
total) happens in `generate_summary`'s subject grouping, which skips any
record whose key was already seen and is therefore idempotent: the subjects
of a doubled cleaned list equal the subjects of the list. -/
theorem C4_theorem :
    (∀ raw : List (List (Str × Str)),
      (clean_attendance_data (raw ++ raw)).length
        = 2 * (clean_attendance_data raw).length) ∧
    (∀ (st : SubjState) (r : Cleaned), recordId r ∈ st.seen → subjStep st r = st) ∧
    (∀ (l : List Cleaned) (g : Option ℚ),
      (generate_summary (l ++ l) g).subjects = (generate_summary l g).subjects) := by
  refine ⟨clean_attendance_data_self_append_length, ?_, generate_summary_subjects_idem⟩
  intro st r h
  unfold subjStep
  rw [if_pos h]

/-- C4 witness: the amended theorem applied at one raw record, one seen
record id, and one cleaned record. -/
theorem C4_witness :
    (clean_attendance_data ([rawRec] ++ [rawRec])).length
      = 2 * (clean_attendance_data [rawRec]).length ∧
    subjStep ⟨[], [recordId rec18]⟩ rec18 = ⟨[], [recordId rec18]⟩ ∧
    (generate_summary ([rec18] ++ [rec18]) none).subjects
      = (generate_summary [rec18] none).subjects :=
  ⟨C4_theorem.1 [rawRec], C4_theorem.2.1 _ rec18 (List.mem_cons_self _ _),
   C4_theorem.2.2 [rec18] none⟩

/-- C10 (confirmed): `generate_summary` computes `total_present` and
`total_classes` by summing over every cleaned record with null counted as 0,
before any deduplication, and `calculated_percentage` from those totals;
doubling the list doubles the totals while the deduplicated subjects map is
unchanged. -/
theorem C10_theorem (l : List Cleaned) (g : Option ℚ) (h : l ≠ []) :
    (generate_summary l g).total_present = some (totPresent l) ∧
    (generate_summary l g).total_classes = some (totClasses l) ∧
    (generate_summary l g).calculated_percentage
      = some (pyRound2 (if 0 < totClasses l then
          (totPresent l : ℚ) / (totClasses l : ℚ) * 100 else 0)) ∧
    (∀ r : Cleaned, r.present = none → ∀ l' : List Cleaned,
      totPresent (r :: l') = totPresent l') ∧
    totPresent (l ++ l) = 2 * totPresent l ∧
    totClasses (l ++ l) = 2 * totClasses l ∧
    (generate_summary (l ++ l) g).total_present = some (2 * totPresent l) ∧
    (generate_summary (l ++ l) g).subjects = (generate_summary l g).subjects := by
  obtain ⟨a, t, rfl⟩ := List.exists_cons_of_ne_nil h
  refine ⟨?_, ?_, ?_, ?_, ?_, ?_, ?_, generate_summary_subjects_idem _ g⟩
  · rw [generate_summary_cons]
  · rw [generate_summary_cons]
  · rw [generate_summary_cons]
  · intro r hr l'
    simp [totPresent, hr]
  · rw [totPresent_append]
    ring
  · rw [totClasses_append]
    ring
  · rw [show (a :: t) ++ (a :: t) = a :: (t ++ a :: t) from by simp,
      generate_summary_cons]
    rw [show a :: (t ++ a :: t) = (a :: t) ++ (a :: t) from by simp,
      totPresent_append]
    rw [Nat.two_mul]

/-- C10 witness: the theorem applied at the two-record list 18/20, 9/10. -/
theorem C10_witness :
    (generate_summary [rec18, rec9] none).total_present
      = some (totPresent [rec18, rec9]) ∧
    (generate_summary ([rec18, rec9] ++ [rec18, rec9]) none).subjects
      = (generate_summary [rec18, rec9] none).subjects :=
  ⟨(C10_theorem [rec18, rec9] none (by simp)).1,
   (C10_theorem [rec18, rec9] none (by simp)).2.2.2.2.2.2.2⟩

/-- The cleaned record that `cleanRecord` produces from `rawRec` with an
empty course-name table. -/
def c18 : Cleaned :=
  { course_code := chars "CS101", class_type := chars "LECT",
    present := some 18, total := some 20,
    percentage := findPctI (chars "90%"),
    raw_present_total := normPT (chars "18 / 20"),
    raw_percentage := chars "90%", course_name := none }

/-- C5 (confirmed): per-record cleaning of the present/total cell — strip,
whitespace collapse and slash-newline normalization (`normPT`) followed by
the `(\d+)\s*/\s*(\d+)` search — returns the integer pair of an actual
`digits / digits` substring of the raw cell whenever one exists, and `none`
for both fields (null, not zero) whenever none exists; a cleaned record's
`present`/`total` fields are exactly that extraction. -/
theorem C5_theorem (s : Str) :
    (HasPT s → ∃ p t, findPT (normPT s) = some (p, t) ∧ MatchesPT s p t) ∧
    (¬ HasPT s → findPT (normPT s) = none) ∧
    (∀ (names r : List (Str × Str)) (c : Cleaned), cleanRecord names r = some c →
      c.present = (findPT c.raw_present_total).map (fun q => q.1) ∧
      c.total = (findPT c.raw_present_total).map (fun q => q.2)) := by
  refine ⟨?_, (findPT_normPT_none_iff s).mpr, ?_⟩
  · intro h
    obtain ⟨pt, hpt⟩ := Option.isSome_iff_exists.mp
      (findPT_isSome_of_HasPT ((HasPT_normPT_iff s).mpr h))
    cases pt with
    | mk p t => exact ⟨p, t, hpt, findPT_normPT_some hpt⟩
  · intro names r c h
    unfold cleanRecord at h
    split at h
    · rename_i cc ct pct
      injection h with h1
      rw [← h1]
      exact ⟨rfl, rfl⟩
    · exact absurd h (by simp)

/-- C5 witness: the theorem applied to the cell "18 / 20" (match present),
the string "attendance" (no match), and the record cleaned from `rawRec`. -/
theorem C5_witness :
    (∃ p t, findPT (normPT (chars "18 / 20")) = some (p, t) ∧
      MatchesPT (chars "18 / 20") p t) ∧
    findPT (normPT (chars "attendance")) = none ∧
    (c18.present = (findPT c18.raw_present_total).map (fun q => q.1) ∧
     c18.total = (findPT c18.raw_present_total).map (fun q => q.2)) := by
  refine ⟨(C5_theorem (chars "18 / 20")).1 ?_,
    (C5_theorem (chars "attendance")).2.1 ?_,
    (C5_theorem []).2.2 [] rawRec c18 rfl⟩
  · exact ⟨18, 20, [], chars "18", [' '], [' '], chars "20", [], by decide, by decide,
      by decide, by decide, by decide, by decide, by decide, by decide, by decide⟩
  · exact not_HasPT_of_findPT_eq_none (by decide)

/-- C6 counterexample: the source's percent pattern tolerates whitespace
before the `%` sign, so on "4 % 3%" the code extracts 4.0 while the claimed
"number immediately followed by %" rule would extract 3.0. -/
theorem C6_counterexample :
    extractGross (chars "4 % 3%") = some 4 ∧
    extractGrossImmediate (chars "4 % 3%") = some 3 := by
  constructor
  · rw [show extractGross (chars "4 % 3%") = some (ratOfParts (chars "4") []) from rfl,
      ratOfParts_int]
    norm_num [show digitsToNat (chars "4") = 4 from by decide]
  · rw [show extractGrossImmediate (chars "4 % 3%")
        = some (ratOfParts (chars "3") []) from rfl, ratOfParts_int]
    norm_num [show digitsToNat (chars "3") = 3 from by decide]

/-- C6 (amended): gross-attendance extraction first matches a number
followed by optional whitespace and then a `%` sign, and only when no such
match exists falls back to the first number anywhere in the text; no `%`
character in the text guarantees the fallback is used; "82%" yields 82.0 and
"attendance: 82 percent" yields 82.0 via the fallback. -/
theorem C6_theorem :
    (∀ (t : Str) (v : ℚ), findPct t = some v → extractGross t = some v) ∧
    (∀ t : Str, findPct t = none → extractGross t = findNum t) ∧
    (∀ t : Str, '%' ∉ t → findPct t = none) ∧
    extractGross (chars "82%") = some 82 ∧
    findPct (chars "attendance: 82 percent") = none ∧
    extractGross (chars "attendance: 82 percent") = some 82 := by
  refine ⟨?_, ?_, ?_, ?_, by decide, ?_⟩
  · intro t v h
    unfold extractGross
    rw [h]
  · intro t h
    unfold extractGross
    rw [h]
  · intro t h
    exact findPct_eq_none_of_no_percent h
  · rw [show extractGross (chars "82%") = some (ratOfParts (chars "82") []) from rfl,
      ratOfParts_int]
    norm_num [show digitsToNat (chars "82") = 82 from by decide]
  · rw [show extractGross (chars "attendance: 82 percent")
        = some (ratOfParts (chars "82") []) from rfl, ratOfParts_int]
    norm_num [show digitsToNat (chars "82") = 82 from by decide]

/-- C6 witness: the amended theorem applied at "82%", "abc" and a
percent-free string. -/
theorem C6_witness :
    extractGross (chars "82%") = some (ratOfParts (chars "82") []) ∧
    extractGross (chars "abc") = findNum (chars "abc") ∧
    findPct (chars "no percent here") = none :=
  ⟨C6_theorem.1 (chars "82%") _ rfl, C6_theorem.2.1 (chars "abc") (by decide),
   C6_theorem.2.2.1 (chars "no percent here") (by decide)⟩

lemma extractAllTables_cons (t : List (List Str)) (rest : List (List (List Str))) :
    extractAllTables (t :: rest) = extractTableRecords t ++ extractAllTables rest := rfl

lemma extractAllTables_append (d1 d2 : List (List (List Str))) :
    extractAllTables (d1 ++ d2) = extractAllTables d1 ++ extractAllTables d2 := by
  induction d1 with
  | nil => rfl
  | cons t ts ih =>
    rw [List.cons_append, extractAllTables_cons, extractAllTables_cons, ih,
      List.append_assoc]

lemma extractTableRecords_cons (hr : List Str) (rows : List (List Str)) :
    extractTableRecords (hr :: rows) =
      if (hr :: rows).length < 2 then []
      else if isAttendanceHeader hr then rows.filterMap (rowRecord hr)
      else [] := rfl

lemma rowRecord_eq (hr row : List Str) :
    rowRecord hr row =
      if (!(row.map pyStrip).isEmpty && (row.map pyStrip).any fun cell => !cell.isEmpty)
      then some ((hr.map pyStrip).zip (row.map pyStrip))
      else none := rfl

/-- C7 (confirmed): table extraction skips tables with fewer than 2 rows,
classifies a table as attendance-relevant exactly when one of the fixed
keywords is a substring of the lower-cased space-joined header text,
extracts a kept row as the positional zip of stripped header and data cells
(ragged rows give a record of the shorter length), keeps a row exactly when
some stripped cell is non-empty, merges tables in document order, and on a
document with one qualifying 3-data-row table plus one decorative table
yields exactly 3 records. -/
theorem C7_theorem :
    (∀ tbl : List (List Str), tbl.length < 2 → extractTableRecords tbl = []) ∧
    (∀ hr : List Str, isAttendanceHeader hr = true ↔
      ∃ w ∈ attendanceKeywords, w <:+: headerJoined hr) ∧
    (∀ (hr : List Str) (rows : List (List Str)), isAttendanceHeader hr = false →
      extractTableRecords (hr :: rows) = []) ∧
    (∀ (hr r : List Str) (rows : List (List Str)), isAttendanceHeader hr = true →
      extractTableRecords (hr :: r :: rows) = (r :: rows).filterMap (rowRecord hr)) ∧
    (∀ (hr row : List Str) (rec : List (Str × Str)), rowRecord hr row = some rec →
      rec = (hr.map pyStrip).zip (row.map pyStrip) ∧
      rec.length = min hr.length row.length) ∧
    (∀ hr row : List Str,
      rowRecord hr row = none ↔ ∀ cell ∈ row, pyStrip cell = []) ∧
    (∀ d1 d2 : List (List (List Str)),
      extractAllTables (d1 ++ d2) = extractAllTables d1 ++ extractAllTables d2) ∧
    (extractAllTables [qualTable, decoTable]).length = 3 := by
  refine ⟨?_, ?_, ?_, ?_, ?_, ?_, extractAllTables_append, by decide⟩
  · intro tbl h
    cases tbl with
    | nil => rfl
    | cons hr rows =>
      rw [extractTableRecords_cons, if_pos h]
  · intro hr
    simp only [isAttendanceHeader, List.any_eq_true]
    constructor
    · rintro ⟨w, hw, hc⟩
      exact ⟨w, hw, (containsSub_spec _ _).mp hc⟩
    · rintro ⟨w, hw, hc⟩
      exact ⟨w, hw, (containsSub_spec _ _).mpr hc⟩
  · intro hr rows h
    cases rows with
    | nil => rfl
    | cons r rs =>
      rw [extractTableRecords_cons, if_neg (by simp only [List.length_cons]; omega),
        if_neg (by simp [h])]
  · intro hr r rows h
    rw [extractTableRecords_cons, if_neg (by simp only [List.length_cons]; omega),
      if_pos h]
  · intro hr row rec h
    rw [rowRecord_eq] at h
    split at h
    · injection h with h1
      refine ⟨h1.symm, ?_⟩
      rw [← h1, List.length_zip, List.length_map, List.length_map]
    · exact absurd h (by simp)
  · intro hr row
    rw [rowRecord_eq]
    constructor
    · intro h cell hc
      by_cases hcond : (!(row.map pyStrip).isEmpty
          && (row.map pyStrip).any fun c => !c.isEmpty) = true
      · rw [if_pos hcond] at h
        exact absurd h (by simp)
      · rw [Bool.and_eq_true] at hcond
        rw [not_and_or] at hcond
        rcases hcond with h1 | h2
        · rw [Bool.not_eq_true, Bool.not_eq_false', List.isEmpty_iff,
            List.map_eq_nil_iff] at h1
          rw [h1] at hc
          exact absurd hc (List.not_mem_nil _)
        · rw [List.any_eq_true] at h2
          push_neg at h2
          have hne := h2 (pyStrip cell) (List.mem_map_of_mem pyStrip hc)
          have h3 : (pyStrip cell).isEmpty = true := by
            cases hie : (pyStrip cell).isEmpty
            · exact absurd (by simp [hie]) hne
            · rfl
          exact List.isEmpty_iff.mp h3
    · intro h
      rw [if_neg]
      rw [Bool.and_eq_true]
      rintro ⟨h1, h2⟩
      rw [List.any_eq_true] at h2
      obtain ⟨c, hcm, hcne⟩ := h2
      obtain ⟨cell, hcell, rfl⟩ := List.mem_map.mp hcm
      rw [h cell hcell] at hcne
      exact absurd hcne (by decide)

/-- C7 witness: the theorem applied to a one-row table, the decorative
header, a qualifying header with a ragged row, and an all-empty row. -/
theorem C7_witness :
    extractTableRecords [[chars "Course"]] = [] ∧
    extractTableRecords decoTable = [] ∧
    (([(chars "Course", chars "CS101")] : List (Str × Str))
        = (([chars "Course", chars "Percentage"]).map pyStrip).zip
            (([chars "CS101"]).map pyStrip) ∧
     ([(chars "Course", chars "CS101")] : List (Str × Str)).length = min 2 1) ∧
    rowRecord [chars "Course"] [chars " ", chars ""] = none := by
  refine ⟨C7_theorem.1 [[chars "Course"]] (by decide),
    ?_, C7_theorem.2.2.2.2.1 [chars "Course", chars "Percentage"] [chars "CS101"]
      [(chars "Course", chars "CS101")] (by decide),
    (C7_theorem.2.2.2.2.2.1 [chars "Course"] [chars " ", chars ""]).mpr ?_⟩
  · exact C7_theorem.2.2.1 [chars "Menu", chars "Links"] [[chars "Home", chars "About"]]
      (by decide)
  · intro cell hc
    rcases List.mem_cons.mp hc with rfl | hc
    · decide
    · rw [List.mem_singleton.mp hc]
      decide

/-- C1 counterexample: an empty student id (and likewise a truthy non-string
value) makes `get_student_attendance` raise `ValueError` from its input
validation, which sits before the `try` block, instead of returning a
structured result. -/
theorem C1_counterexample :
    get_student_attendance (.pystr []) (.pystr (chars "pw")) env0
      = .error .valueError ∧
    get_student_attendance (.other true) (.other true) env0
      = .error .valueError := ⟨rfl, rfl⟩

/-- C1 (amended): for non-empty string credentials `get_student_attendance`
always returns a structured result dictionary without raising, and whenever
that result has `success = false` its `data` is the empty list and its
`summary` the empty dictionary; empty or non-string credentials instead
raise `ValueError` before the `try` block. -/
theorem C1_theorem (sid pwd : Str) (e : Env) (hs : sid ≠ []) (hp : pwd ≠ []) :
    ∃ res flag, get_student_attendance (.pystr sid) (.pystr pwd) e = .ok (res, flag) ∧
      (res.success = false → res.data = [] ∧ res.summary = {}) := by
  unfold get_student_attendance
  rw [if_neg (by simp [pyTruthy, List.isEmpty_iff, hs, hp]),
    if_neg (by simp [pyIsStrVal])]
  refine ⟨_, _, congrArg Except.ok Prod.mk.eta.symm, ?_⟩
  dsimp only
  split
  · intro _; exact ⟨rfl, rfl⟩
  · split
    · intro h; exact absurd h (by simp)
    · split
      · intro _; exact ⟨rfl, rfl⟩
      · split
        · intro _; exact ⟨rfl, rfl⟩
        · intro h; exact absurd h (by simp)

/-- C1 witness: the amended theorem applied at a concrete student id,
password and environment. -/
theorem C1_witness :
    ∃ res flag, get_student_attendance (.pystr (chars "23CS012"))
        (.pystr (chars "password")) env0 = .ok (res, flag) ∧
      (res.success = false → res.data = [] ∧ res.summary = {}) :=
  C1_theorem (chars "23CS012") (chars "password") env0 (by decide) (by decide)

/-- C8 (confirmed): when the login response has neither the `pnlGrossAtt`
dashboard marker nor a `dlAppList` anchor, `login_to_portal` fails with the
no-application-link reason, `get_student_attendance` returns
`success = false` with empty data and summary, and the attendance postback
is never issued (the returned flag is `false`). -/
theorem C8_theorem (e : Env) (sid pwd : Str) (h1 : e.loginPageStatus = 200)
    (h2 : e.loginPostStatus = 200) (h3 : e.loginResultDoc.hasPnlGrossAtt = false)
    (h4 : e.loginResultDoc.hasAppListAnchor = false) (hs : sid ≠ []) (hp : pwd ≠ []) :
    login_to_portal e = .error .noApplicationLink ∧
    ∃ res, get_student_attendance (.pystr sid) (.pystr pwd) e = .ok (res, false) ∧
      res.success = false ∧ res.data = [] ∧ res.summary = {} := by
  have hlp : login_to_portal e = .error .noApplicationLink := by
    unfold login_to_portal
    rw [if_neg (by simp [h1]), if_neg (by simp [h2]), if_neg (by simp [h3]),
      if_neg (by simp [h4])]
  refine ⟨hlp, ?_⟩
  unfold get_student_attendance
  rw [if_neg (by simp [pyTruthy, List.isEmpty_iff, hs, hp]),
    if_neg (by simp [pyIsStrVal])]
  rw [hlp]
  exact ⟨_, rfl, rfl, rfl, rfl⟩

/-- C8 witness: the theorem applied at the concrete environment whose login
response has neither marker. -/
theorem C8_witness :
    login_to_portal env0 = .error .noApplicationLink ∧
    ∃ res, get_student_attendance (.pystr (chars "23CS012"))
        (.pystr (chars "password")) env0 = .ok (res, false) ∧
      res.success = false ∧ res.data = [] ∧ res.summary = {} :=
  C8_theorem env0 (chars "23CS012") (chars "password") rfl rfl rfl rfl
    (by decide) (by decide)

/-- C9 (confirmed): when the dashboard document carries a `lblPopGrossAtt`
element whose text parses to a gross figure, `get_student_attendance`
returns immediately with `success = true`, empty `data`, a summary holding
exactly `gross_attendance`, `overall_percentage` (both the gross figure) and
`student_id`, and the detailed-attendance postback is never issued — so
`success = true` does not imply non-empty data. -/
theorem C9_theorem (e : Env) (sid pwd : Str) (d : Doc) (txt : Str) (g : ℚ)
    (hlp : login_to_portal e = .ok d) (htxt : d.lblPopGrossAtt = some txt)
    (hex : extractGross (pyStrip txt) = some g) (hs : sid ≠ []) (hp : pwd ≠ []) :
    get_student_attendance (.pystr sid) (.pystr pwd) e =
      .ok ({ success := true, data := [], message := msgRetrieved sid,
             summary := { gross_attendance := some g, overall_percentage := some g,
                          student_id := some sid } }, false) := by
  unfold get_student_attendance
  rw [if_neg (by simp [pyTruthy, List.isEmpty_iff, hs, hp]),
    if_neg (by simp [pyIsStrVal])]
  rw [hlp]
  simp only [htxt, Option.map_some', hex]
  rfl

/-- C9 witness: the theorem applied at the environment whose login response
is already the dashboard and shows "76.5%". -/
theorem C9_witness :
    get_student_attendance (.pystr (chars "23CS012")) (.pystr (chars "password")) env9 =
      .ok ({ success := true, data := [],
             message := msgRetrieved (chars "23CS012"),
             summary := { gross_attendance := some (153/2 : ℚ),
                          overall_percentage := some (153/2 : ℚ),
                          student_id := some (chars "23CS012") } }, false) := by
  refine C9_theorem env9 (chars "23CS012") (chars "password") doc9 (chars "76.5%")
    (153/2 : ℚ) rfl rfl ?_ (by decide) (by decide)
  rw [show extractGross (pyStrip (chars "76.5%"))
      = some (ratOfParts (chars "76") (chars "5")) from rfl]
  rw [show ratOfParts (chars "76") (chars "5")
      = (digitsToNat (chars "76") : ℚ)
        + (digitsToNat (chars "5") : ℚ) / (10 : ℚ) ^ (chars "5").length from rfl]
  norm_num [show digitsToNat (chars "76") = 76 from by decide,
    show digitsToNat (chars "5") = 5 from by decide,
    show (chars "5").length = 1 from by decide]
